import Mathlib

/-! Peloton: catalog cache, frontend-logger registry and logging protocol.

A shallow embedding of `src/catalog/catalog_cache.cpp` (the oid/name-keyed
catalog cache), of the backend-logger registry declared in
`src/backend/logging/frontend_logger.h`, and of the append, collect, flush and
recovery protocol the spec describes around it.

Modelling conventions.

* `std::unordered_map<K, V>` is an association list `List (K × V)`.  The three
  operations the cache uses are `find`, `insert` (which leaves the map alone
  when the key is already present) and `erase`.  A real `unordered_map` never
  holds two entries with one key; the functions below do not require that, and
  every theorem that quantifies over all lists therefore covers every map.
* `std::shared_ptr<T>` passed to or returned from the cache is `Option T`, with
  `none` for `nullptr`.  A pointer stored inside the cache is never null: the
  only writers are the two insert functions, which reject a null pointer, and
  the evict functions assert it (`PELOTON_ASSERT`).  The maps therefore store
  the objects themselves.
* `oid_t` is an unsigned 32-bit integer that is only ever compared for
  equality, so it is a `Nat`.
* `INVALID_OID` is declared in a header that is not part of the sources, so it
  is a parameter of the functions that mention it.
* `boost::hash<std::tuple<std::string, size_t>>` is a library function; it is
  the parameter `key_hash` of `GetHashKey`.
-/

namespace peloton

/-- The type `oid_t` of object identifiers. -/
abbrev oid_t := Nat

/-! ## `std::unordered_map` -/

namespace unordered_map

variable {K V : Type} [DecidableEq K]

/-- The call `m.find(k)`: the value stored under `k`, or `none` for `m.end()`. -/
def find : List (K × V) → K → Option V
  | [], _ => none
  | (k', v) :: rest, k => if k' = k then some v else find rest k

/-- The call `m.insert(std::make_pair(k, v))`: no effect when `k` is already a key. -/
def insert (m : List (K × V)) (k : K) (v : V) : List (K × V) :=
  match find m k with
  | some _ => m
  | none => (k, v) :: m

/-- The calls `m.erase(k)` and `m.erase(it)` with `it = m.find(k)`: the entry
under `k` is removed. -/
def erase (m : List (K × V)) (k : K) : List (K × V) :=
  m.filter (fun p => decide (p.1 ≠ k))

/-- The keys of a map. -/
def keys (m : List (K × V)) : List K := m.map Prod.fst

end unordered_map

namespace catalog

open unordered_map

/-- The part of `DatabaseCatalogObject` the cache reads: `GetDatabaseOid()` and
`GetDatabaseName()`. -/
structure DatabaseCatalogObject where
  database_oid : oid_t
  database_name : String
deriving DecidableEq, Repr

/-- The part of `SequenceCatalogObject` the cache reads: the public members
`seq_oid`, `seq_name` and `db_oid`. -/
structure SequenceCatalogObject where
  seq_oid : oid_t
  seq_name : String
  db_oid : oid_t
deriving DecidableEq, Repr

/-- The three maps of a `CatalogCache`. -/
structure CatalogCache where
  database_objects_cache : List (oid_t × DatabaseCatalogObject)
  database_name_cache : List (String × DatabaseCatalogObject)
  sequence_objects_cache : List (Nat × SequenceCatalogObject)
deriving DecidableEq, Repr

/-- A freshly constructed cache. -/
def CatalogCache.empty : CatalogCache := ⟨[], [], []⟩

/-- `CatalogCache::InsertDatabaseObject`: the returned flag and the cache afterwards. -/
def InsertDatabaseObject (INVALID_OID : oid_t) (c : CatalogCache)
    (database_object : Option DatabaseCatalogObject) : Bool × CatalogCache :=
  match database_object with
  | none => (false, c)
  | some obj =>
    if obj.database_oid = INVALID_OID then (false, c)
    else if (find c.database_objects_cache obj.database_oid).isSome then (false, c)
    else if (find c.database_name_cache obj.database_name).isSome then (false, c)
    else
      (true,
        { c with
          database_objects_cache := insert c.database_objects_cache obj.database_oid obj
          database_name_cache := insert c.database_name_cache obj.database_name obj })

/-- `CatalogCache::EvictDatabaseObject(oid_t database_oid)`. -/
def EvictDatabaseObject (c : CatalogCache) (database_oid : oid_t) : Bool × CatalogCache :=
  match find c.database_objects_cache database_oid with
  | none => (false, c)
  | some database_object =>
    (true,
      { c with
        database_objects_cache := erase c.database_objects_cache database_oid
        database_name_cache := erase c.database_name_cache database_object.database_name })

/-- `CatalogCache::EvictDatabaseObject(const std::string &database_name)`. -/
def EvictDatabaseObject_name (c : CatalogCache) (database_name : String) :
    Bool × CatalogCache :=
  match find c.database_name_cache database_name with
  | none => (false, c)
  | some database_object =>
    (true,
      { c with
        database_name_cache := erase c.database_name_cache database_name
        database_objects_cache :=
          erase c.database_objects_cache database_object.database_oid })

/-- `CatalogCache::GetDatabaseObject(oid_t database_oid)`; `none` is `nullptr`. -/
def GetDatabaseObject (c : CatalogCache) (database_oid : oid_t) :
    Option DatabaseCatalogObject :=
  match find c.database_objects_cache database_oid with
  | none => none
  | some database_object => some database_object

/-- `CatalogCache::GetDatabaseObject(const std::string &database_name)`. -/
def GetDatabaseObject_name (c : CatalogCache) (database_name : String) :
    Option DatabaseCatalogObject :=
  match find c.database_name_cache database_name with
  | none => none
  | some database_object => some database_object

/-- `CatalogCache::GetHashKey`: the library hash of the pair
`(sequence_name, database_oid)`. -/
def GetHashKey (key_hash : String × Nat → Nat) (sequence_name : String)
    (database_oid : oid_t) : Nat :=
  key_hash (sequence_name, database_oid)

/-- `CatalogCache::InsertSequenceObject`. -/
def InsertSequenceObject (INVALID_OID : oid_t) (key_hash : String × Nat → Nat)
    (c : CatalogCache) (sequence_object : Option SequenceCatalogObject) :
    Bool × CatalogCache :=
  match sequence_object with
  | none => (false, c)
  | some obj =>
    if obj.seq_oid = INVALID_OID then (false, c)
    else
      let hash_key := GetHashKey key_hash obj.seq_name obj.db_oid
      if (find c.sequence_objects_cache hash_key).isSome then (false, c)
      else
        (true,
          { c with sequence_objects_cache := insert c.sequence_objects_cache hash_key obj })

/-- `CatalogCache::GetSequenceObject`; `none` is `nullptr`. -/
def GetSequenceObject (key_hash : String × Nat → Nat) (c : CatalogCache)
    (sequence_name : String) (database_oid : oid_t) : Option SequenceCatalogObject :=
  let hash_key := GetHashKey key_hash sequence_name database_oid
  match find c.sequence_objects_cache hash_key with
  | none => none
  | some sequence_object => some sequence_object

/-- The cache states that `InsertDatabaseObject` and the two
`EvictDatabaseObject` overloads produce from the empty cache. -/
inductive Reachable (INVALID_OID : oid_t) : CatalogCache → Prop
  | empty : Reachable INVALID_OID CatalogCache.empty
  | insert (c : CatalogCache) (o : Option DatabaseCatalogObject) :
      Reachable INVALID_OID c → Reachable INVALID_OID (InsertDatabaseObject INVALID_OID c o).2
  | evict (c : CatalogCache) (database_oid : oid_t) :
      Reachable INVALID_OID c → Reachable INVALID_OID (EvictDatabaseObject c database_oid).2
  | evict_name (c : CatalogCache) (database_name : String) :
      Reachable INVALID_OID c →
        Reachable INVALID_OID (EvictDatabaseObject_name c database_name).2

/-- The two database maps hold the same objects: an object found under an oid
has that oid and is found under its name, and an object found under a name has
that name and is found under its oid. -/
def Consistent (c : CatalogCache) : Prop :=
  (∀ k o, find c.database_objects_cache k = some o →
    o.database_oid = k ∧ find c.database_name_cache o.database_name = some o) ∧
  (∀ n o, find c.database_name_cache n = some o →
    o.database_name = n ∧ find c.database_objects_cache o.database_oid = some o)

/-- Every entry of the sequence map sits under the hash key of its own
`(seq_name, db_oid)` pair. -/
def SeqKeyed (key_hash : String × Nat → Nat) (c : CatalogCache) : Prop :=
  ∀ k o, (k, o) ∈ c.sequence_objects_cache → k = GetHashKey key_hash o.seq_name o.db_oid

/-- The hash does not confuse the pair `(sequence_name, database_oid)` with the
pair of a different cached sequence. -/
def NoCollision (key_hash : String × Nat → Nat) (c : CatalogCache)
    (sequence_name : String) (database_oid : oid_t) : Prop :=
  ∀ k o, (k, o) ∈ c.sequence_objects_cache →
    GetHashKey key_hash o.seq_name o.db_oid = GetHashKey key_hash sequence_name database_oid →
    o.seq_name = sequence_name ∧ o.db_oid = database_oid

/-- The value of `INVALID_OID` used in the concrete examples: the largest
unsigned 32-bit integer. -/
def sampleInvalidOid : oid_t := 4294967295

/-- A cache holding the single database `(1, "a")`. -/
def cacheA : CatalogCache :=
  (InsertDatabaseObject sampleInvalidOid CatalogCache.empty (some ⟨1, "a"⟩)).2

/-- A stand-in for the library hash, used only to evaluate the concrete examples. -/
def sampleHash : String × Nat → Nat := fun p => p.1.length + 31 * p.2

end catalog

/-! ## The backend-logger registry of `FrontendLogger` -/

namespace logging

/-- A `BackendLogger*`: the address of a backend logger. -/
abbrev BackendLogger := Nat

/-- The registry member of `FrontendLogger`:
`std::vector<BackendLogger*> backend_loggers`.  The mutex that guards it has no
counterpart here: every operation below is one critical section. -/
structure FrontendLogger where
  backend_loggers : List BackendLogger
deriving DecidableEq, Repr

/-- Modelled from the spec: the body of `FrontendLogger::AddBackendLogger`,
which `frontend_logger.h` declares as `void AddBackendLogger(BackendLogger*)`
and whose definition is not among the sources.  The spec: the call "inserts `b`
into `backend_loggers`", and "duplicate insert is a no-op".  The declared return
type is `void`, so the value handed back to the caller is `Unit`. -/
def AddBackendLogger (fl : FrontendLogger) (backend_logger : BackendLogger) :
    Unit × FrontendLogger :=
  if backend_logger ∈ fl.backend_loggers then ((), fl)
  else ((), { fl with backend_loggers := fl.backend_loggers ++ [backend_logger] })

/-- Modelled from the spec: the body of `FrontendLogger::RemoveBackendLogger`,
which `frontend_logger.h` declares as `bool RemoveBackendLogger(BackendLogger*)`
and whose definition is not among the sources.  The spec: the call "removes `b`
... returns whether it was present".  The final drain the spec attaches to a
removal moves log records between a backend buffer and the pending flush set;
it does not touch the registry and is not part of this state. -/
def RemoveBackendLogger (fl : FrontendLogger) (backend_logger : BackendLogger) :
    Bool × FrontendLogger :=
  (decide (backend_logger ∈ fl.backend_loggers),
    { fl with
      backend_loggers := fl.backend_loggers.filter (fun x => decide (x ≠ backend_logger)) })

/-- Modelled from the spec: the body of `FrontendLogger::GetBackendLoggers`,
which `frontend_logger.h` declares as
`std::vector<BackendLogger*> GetBackendLoggers(void)` and whose definition is
not among the sources.  The spec: the call "returns a snapshot (copy) of the
registry".  The vector is returned by value, so the result is a list of its
own, paired with the registry state after the call. -/
def GetBackendLoggers (fl : FrontendLogger) : List BackendLogger × FrontendLogger :=
  (fl.backend_loggers, fl)

/-- A registration or a removal issued by a worker. -/
inductive RegistryOp where
  | add (b : BackendLogger)
  | remove (b : BackendLogger)
deriving DecidableEq, Repr

/-- The registry after one registration or removal. -/
def RegistryOp.run (fl : FrontendLogger) : RegistryOp → FrontendLogger
  | .add b => (AddBackendLogger fl b).2
  | .remove b => (RemoveBackendLogger fl b).2

/-- The registry after a sequence of registrations and removals, oldest first. -/
def runOps (fl : FrontendLogger) (ops : List RegistryOp) : FrontendLogger :=
  ops.foldl RegistryOp.run fl

/-- A caller that takes a snapshot of the registry and keeps it while later
registrations and removals run: the snapshot it still holds, and the registry
at the end. -/
def snapshotThen (fl : FrontendLogger) (ops : List RegistryOp) :
    List BackendLogger × FrontendLogger :=
  let r := GetBackendLoggers fl
  (r.1, runOps r.2 ops)

/-! ### The registry and its snapshots as objects in memory

A `std::vector<BackendLogger*>` is an object with an address.  The registry
member of the `FrontendLogger` is one such object; a vector returned by value
from `GetBackendLoggers` is another, owned by the caller.  The store below
holds these objects so that "a later call does not change a vector returned
earlier" is a statement about two addresses. -/

/-- Memory holding vector objects: the vector at address `a` is the `a`-th cell. -/
structure VectorStore where
  cells : List (List BackendLogger)
deriving DecidableEq, Repr

/-- The contents of the vector at address `a`. -/
def VectorStore.read (m : VectorStore) (a : Nat) : List BackendLogger :=
  m.cells.getD a []

/-- The vector at address `a` is overwritten with `v`. -/
def VectorStore.write (m : VectorStore) (a : Nat) (v : List BackendLogger) : VectorStore :=
  ⟨m.cells.set a v⟩

/-- A new vector object is constructed holding `v`: its address, and the store
with the new object in it. -/
def VectorStore.alloc (m : VectorStore) (v : List BackendLogger) : Nat × VectorStore :=
  (m.cells.length, ⟨m.cells ++ [v]⟩)

/-- Modelled from the spec: `FrontendLogger::AddBackendLogger` on the
`FrontendLogger` whose `backend_loggers` member is the vector at address `self`;
the body is not among the sources.  The member is updated in place. -/
def AddBackendLogger_at (m : VectorStore) (self : Nat) (backend_logger : BackendLogger) :
    Unit × VectorStore :=
  ((AddBackendLogger ⟨m.read self⟩ backend_logger).1,
    m.write self (AddBackendLogger ⟨m.read self⟩ backend_logger).2.backend_loggers)

/-- Modelled from the spec: `FrontendLogger::RemoveBackendLogger` on the
`FrontendLogger` whose `backend_loggers` member is the vector at address `self`;
the body is not among the sources.  The member is updated in place. -/
def RemoveBackendLogger_at (m : VectorStore) (self : Nat) (backend_logger : BackendLogger) :
    Bool × VectorStore :=
  ((RemoveBackendLogger ⟨m.read self⟩ backend_logger).1,
    m.write self (RemoveBackendLogger ⟨m.read self⟩ backend_logger).2.backend_loggers)

/-- Modelled from the spec: `FrontendLogger::GetBackendLoggers` on the
`FrontendLogger` whose `backend_loggers` member is the vector at address `self`;
the body is not among the sources.  The header declares the result
`std::vector<BackendLogger*>` by value and the spec calls it "a snapshot (copy)
of the registry": a new vector object is constructed from the member and its
address is what the caller gets. -/
def GetBackendLoggers_at (m : VectorStore) (self : Nat) : Nat × VectorStore :=
  m.alloc (GetBackendLoggers ⟨m.read self⟩).1

/-- One registration or removal on the registry at address `self`. -/
def RegistryOp.runAt (self : Nat) (m : VectorStore) : RegistryOp → VectorStore
  | .add b => (AddBackendLogger_at m self b).2
  | .remove b => (RemoveBackendLogger_at m self b).2

/-- A sequence of registrations and removals on the registry at address `self`,
oldest first. -/
def runOpsAt (self : Nat) (m : VectorStore) (ops : List RegistryOp) : VectorStore :=
  ops.foldl (RegistryOp.runAt self) m

/-! ### Log records, backend buffers, the durable sink and recovery

None of `LogRecord`, `BackendLogger`, the logging sink, the storage engine or an
implementation of the pure virtual `CollectLogRecord`, `Flush` and `DoRecovery`
is among the sources; the definitions below follow the spec.  Log sequence
numbers are natural numbers: the spec takes them to be strictly increasing for
the lifetime of a coordinator, so no wrap-around of the 64-bit counter occurs.
The first LSN handed out is `1`, and `flushed_lsn = 0` says that nothing has
been flushed yet. -/

/-- The `record_kind` of a log record. -/
inductive RecordKind where
  | Begin
  | Insert
  | Delete
  | Update
  | Commit
  | Abort
deriving DecidableEq, Repr

/-- Modelled from the spec: the `LogRecord` of the data model, whose class is
not among the sources: `lsn`, `transaction_id`, `record_kind`, `payload` (opaque
to the logging layer) and `commit_id` (assigned only to Commit records). -/
structure LogRecord where
  lsn : Nat
  transaction_id : Nat
  record_kind : RecordKind
  payload : Nat
  commit_id : Option Nat
deriving DecidableEq, Repr

/-- Modelled from the spec: the object a `BackendLogger*` points to, whose class
(`backend_logger.h`) is not among the sources: `logger_id` and the `buffer`, an
ordered sequence of log records. -/
structure BackendLoggerObject where
  logger_id : Nat
  buffer : List LogRecord
deriving DecidableEq, Repr

/-- Modelled from the spec: `BackendLogger::AppendRecord(record)`, not among the
sources: the owning worker appends the record to the buffer.  The out-of-memory
failure the spec mentions is a resource limit and has no counterpart here. -/
def AppendRecord (b : BackendLoggerObject) (record : LogRecord) : BackendLoggerObject :=
  { b with buffer := b.buffer ++ [record] }

/-- Modelled from the spec: `BackendLogger::DrainRecords()`, not among the
sources: it "swaps out the current buffer for an empty one and returns the
drained sequence in the order records were appended". -/
def DrainRecords (b : BackendLoggerObject) : List LogRecord × BackendLoggerObject :=
  (b.buffer, { b with buffer := [] })

/-- The coordinator together with its collaborators: the registered backends
(each address with the object at it), the collected batch that awaits a flush,
the counters `next_lsn` and `flushed_lsn`, and the records the sink holds
durably. -/
structure LoggingSystem where
  backends : List (BackendLogger × BackendLoggerObject)
  collected : List LogRecord
  next_lsn : Nat
  flushed_lsn : Nat
  sink : List LogRecord
deriving DecidableEq, Repr

/-- A coordinator that has flushed nothing yet, with the given backends. -/
def LoggingSystem.start (backends : List (BackendLogger × BackendLoggerObject)) :
    LoggingSystem :=
  { backends := backends, collected := [], next_lsn := 1, flushed_lsn := 0, sink := [] }

/-- A worker appends a record through the backend logger at address `b`. -/
def appendAt (s : LoggingSystem) (b : BackendLogger) (record : LogRecord) : LoggingSystem :=
  { s with
    backends := s.backends.map
      (fun p => if p.1 = b then (p.1, AppendRecord p.2 record) else p) }

/-- Every backend is drained in registry order: the concatenated drained
sequences and the emptied backends. -/
def drainAll : List (BackendLogger × BackendLoggerObject) →
    List LogRecord × List (BackendLogger × BackendLoggerObject)
  | [] => ([], [])
  | (a, obj) :: rest =>
    ((DrainRecords obj).1 ++ (drainAll rest).1, (a, (DrainRecords obj).2) :: (drainAll rest).2)

/-- The records get consecutive LSNs, the first one `start`. -/
def assignLsns : Nat → List LogRecord → List LogRecord
  | _, [] => []
  | start, r :: rest => { r with lsn := start } :: assignLsns (start + 1) rest

/-- The largest LSN among the records and `floor`. -/
def maxLsn : List LogRecord → Nat → Nat
  | [], floor => floor
  | r :: rest, floor => maxLsn rest (max floor r.lsn)

/-- Modelled from the spec: an implementation of
`FrontendLogger::CollectLogRecord`, pure virtual in `frontend_logger.h`: "drain
every registered backend ..., concatenate the drained sequences, and assign LSNs
in drain order". -/
def CollectLogRecord (s : LoggingSystem) : LoggingSystem :=
  { s with
    backends := (drainAll s.backends).2
    collected := s.collected ++ assignLsns s.next_lsn (drainAll s.backends).1
    next_lsn := s.next_lsn + (drainAll s.backends).1.length }

/-- Modelled from the spec: an implementation of `FrontendLogger::Flush`, pure
virtual in `frontend_logger.h`: "serialize the collected batch and append it to
the LoggingSink, then advance `flushed_lsn` to the batch's maximum LSN only
after the sink confirms durability".  `confirmed` is the answer of the sink; on
a failed attempt the batch stays intact and nothing is discarded.  `flushed_lsn`
never moves back. -/
def Flush (s : LoggingSystem) (confirmed : Bool) : LoggingSystem :=
  if confirmed then
    { s with
      sink := s.sink ++ s.collected
      flushed_lsn := maxLsn s.collected s.flushed_lsn
      collected := [] }
  else s

/-- One step of the logging protocol. -/
inductive LogOp where
  | append (b : BackendLogger) (record : LogRecord)
  | collect
  | flush (confirmed : Bool)
deriving DecidableEq, Repr

/-- The system after one step. -/
def LogOp.run (s : LoggingSystem) : LogOp → LoggingSystem
  | .append b record => appendAt s b record
  | .collect => CollectLogRecord s
  | .flush confirmed => Flush s confirmed

/-- The system after a sequence of steps, oldest first. -/
def runLog (s : LoggingSystem) (ops : List LogOp) : LoggingSystem :=
  ops.foldl LogOp.run s

/-- What the sink gives back after a crash: the durably flushed records, each
parsable, followed by whatever a write in flight left behind (`torn`); `none` is
a raw record that does not parse. -/
def crash (s : LoggingSystem) (torn : List (Option LogRecord)) : List (Option LogRecord) :=
  s.sink.map some ++ torn

/-- Modelled from the spec: the sequential read-back of the sink during
recovery, "stopping replay at the last fully-parsable record". -/
def readable : List (Option LogRecord) → List LogRecord
  | [] => []
  | none :: _ => []
  | some r :: rest => r :: readable rest

/-- Insert, Delete and Update records are the ones recovery can re-apply. -/
def isMutation (k : RecordKind) : Bool :=
  k = .Insert || k = .Delete || k = .Update

/-- The first record of transaction `tid` with kind `k`, if the log has one. -/
def firstRecord (log : List LogRecord) (tid : Nat) (k : RecordKind) : Option LogRecord :=
  log.find? (fun r => r.transaction_id = tid && r.record_kind = k)

/-- The terminal record of a transaction: its Commit record when the log has
one, otherwise its Abort record when the log has one. -/
def terminalRecord (log : List LogRecord) (tid : Nat) : Option LogRecord :=
  match firstRecord log tid .Commit with
  | some c => some c
  | none => firstRecord log tid .Abort

/-- An entry of the transaction table: the Begin LSN and, if present, the
terminal record. -/
structure TxnEntry where
  begin_lsn : Nat
  terminal : Option LogRecord
deriving DecidableEq, Repr

/-- Modelled from the spec: step 1 of recovery, "build a transaction table keyed
by `transaction_id`, recording each transaction's Begin LSN and, if present, its
terminal record".  Only a Begin record opens an entry, so a Commit record of a
never-begun transaction leaves no entry. -/
def transactionTable (log : List LogRecord) : List (Nat × TxnEntry) :=
  log.foldl
    (fun table r =>
      if r.record_kind = .Begin then
        unordered_map.insert table r.transaction_id
          ⟨r.lsn, terminalRecord log r.transaction_id⟩
      else table)
    []

/-- The table lists the transaction with a Commit record as its terminal record. -/
def isCommitted (table : List (Nat × TxnEntry)) (tid : Nat) : Bool :=
  match unordered_map.find table tid with
  | none => false
  | some e =>
    match e.terminal with
    | none => false
    | some t => t.record_kind = .Commit

/-- Modelled from the spec: steps 2 and 3 of recovery: the records that are
re-applied, "for every transaction with a Commit record, ... its
Insert/Delete/Update records ... in LSN order"; every other record is
discarded. -/
def redoRecords (raw : List (Option LogRecord)) : List LogRecord :=
  List.insertionSort (fun a b => a.lsn ≤ b.lsn)
    ((readable raw).filter
      (fun r => isMutation r.record_kind &&
        isCommitted (transactionTable (readable raw)) r.transaction_id))

/-- Modelled from the spec: the storage engine as recovery sees it, an external
collaborator: the records handed to `ApplyInsert`, `ApplyDelete` and
`ApplyUpdate`, in call order. -/
structure StorageEngine where
  applied : List LogRecord
deriving DecidableEq, Repr

/-- The outcome of recovery: the storage engine and the coordinator's `next_lsn`. -/
structure Recovered where
  storage : StorageEngine
  next_lsn : Nat
deriving DecidableEq, Repr

/-- Modelled from the spec: an implementation of `FrontendLogger::DoRecovery`,
pure virtual in `frontend_logger.h`: the sink is read from its start, the
records of committed transactions are re-applied to the storage engine, and
`next_lsn` is set "to one past the highest LSN seen". -/
def DoRecovery (storage : StorageEngine) (raw : List (Option LogRecord)) : Recovered :=
  { storage := { applied := storage.applied ++ redoRecords raw }
    next_lsn := maxLsn (readable raw) 0 + 1 }

/-- The record has been given an LSN by the coordinator, and that LSN is at most
the last acknowledged `flushed_lsn`. -/
def acknowledged (s : LoggingSystem) (r : LogRecord) : Prop :=
  r ∈ s.sink ++ s.collected ∧ r.lsn ≤ s.flushed_lsn

/-- The LSN bookkeeping of the coordinator: what the sink holds is at most
`flushed_lsn`, what awaits a flush lies strictly between `flushed_lsn` and
`next_lsn`. -/
def LsnInvariant (s : LoggingSystem) : Prop :=
  (∀ r ∈ s.sink, r.lsn ≤ s.flushed_lsn) ∧
    (∀ r ∈ s.collected, s.flushed_lsn < r.lsn ∧ r.lsn < s.next_lsn) ∧
    s.flushed_lsn < s.next_lsn

/-- The records that are given an LSN in the course of the steps `ops` taken
from state `s`, each with its LSN, in the order of assignment: every collection
numbers the records it drains. -/
def issued (s : LoggingSystem) : List LogOp → List LogRecord
  | [] => []
  | op :: rest =>
    (match op with
      | .collect => assignLsns s.next_lsn (drainAll s.backends).1
      | _ => []) ++ issued (op.run s) rest

/-- In the steps `ops`, the record `x` is appended through the backend at
address `a`, a collection follows, and an acknowledged flush follows that. -/
def FlushedAfterAppend (ops : List LogOp) (a : BackendLogger) (x : LogRecord) : Prop :=
  ∃ pre mid mid2 post,
    ops = pre ++ (.append a x :: (mid ++ (.collect :: (mid2 ++ (.flush true :: post)))))

/-- Some registered backend holds the record in its buffer. -/
def inBuffer (s : LoggingSystem) (x : LogRecord) : Prop :=
  ∃ p ∈ s.backends, x ∈ p.2.buffer

/-- The steps of scenario A. -/
def scenarioA_ops : List LogOp :=
  [.append 1 ⟨0, 1, .Begin, 0, none⟩, .append 1 ⟨0, 1, .Insert, 11, none⟩,
    .append 1 ⟨0, 1, .Commit, 0, some 1⟩, .collect, .flush true]

/-- Scenario B of the spec with a flush before the crash: backend `1` appends
`Begin(T2)` and `Insert(T2, row 22)`, the coordinator collects and flushes. -/
def scenarioB : LoggingSystem :=
  runLog (LoggingSystem.start [(1, ⟨0, []⟩)])
    [.append 1 ⟨0, 2, .Begin, 0, none⟩, .append 1 ⟨0, 2, .Insert, 22, none⟩,
      .collect, .flush true]

/-- Scenario A of the spec: backend `1` appends `Begin(T1)`, `Insert(T1, row 11)`
and `Commit(T1)`, the coordinator collects and flushes. -/
def scenarioA : LoggingSystem :=
  runLog (LoggingSystem.start [(1, ⟨0, []⟩)])
    [.append 1 ⟨0, 1, .Begin, 0, none⟩, .append 1 ⟨0, 1, .Insert, 11, none⟩,
      .append 1 ⟨0, 1, .Commit, 0, some 1⟩, .collect, .flush true]

/-- The sink after scenario A, followed by the first two records of the
uncommitted transaction `T2` and a raw record that does not parse. -/
def mixedLog : List (Option LogRecord) :=
  crash scenarioA [some ⟨4, 2, .Begin, 0, none⟩, some ⟨5, 2, .Insert, 22, none⟩, none]

end logging

end peloton


/-! ## Lemmas about the map operations -/

namespace peloton.unordered_map

variable {K V : Type} [DecidableEq K]

theorem find_eq_none_iff (m : List (K × V)) (k : K) :
    find m k = none ↔ k ∉ keys m := by
  induction m with
  | nil => simp [find, keys]
  | cons p rest ih =>
    obtain ⟨k', v⟩ := p
    by_cases h : k' = k
    · simp [find, keys, h]
    · have h' : ¬ k = k' := fun e => h e.symm
      simpa [find, keys, h, h'] using ih

theorem find_isSome_iff (m : List (K × V)) (k : K) :
    (find m k).isSome = true ↔ k ∈ keys m := by
  rw [← not_iff_not, ← find_eq_none_iff]
  cases find m k <;> simp

theorem mem_of_find_eq_some {m : List (K × V)} {k : K} {v : V}
    (h : find m k = some v) : (k, v) ∈ m := by
  induction m with
  | nil => simp [find] at h
  | cons p rest ih =>
    obtain ⟨k', v'⟩ := p
    by_cases hk : k' = k
    · simp [find, hk] at h
      simp [hk, h]
    · simp [find, hk] at h
      exact List.mem_cons_of_mem _ (ih h)

theorem find_eq_some_of_mem_nodup {m : List (K × V)} {k : K} {v : V}
    (hn : (keys m).Nodup) (h : (k, v) ∈ m) : find m k = some v := by
  induction m with
  | nil => simp at h
  | cons p rest ih =>
    obtain ⟨k', v'⟩ := p
    simp only [keys, List.map_cons, List.nodup_cons] at hn
    rcases List.mem_cons.1 h with e | e
    · cases e
      simp [find]
    · have hk : k' ≠ k := by
        intro e'
        subst e'
        exact hn.1 (List.mem_map_of_mem Prod.fst e)
      simpa [find, hk] using ih hn.2 e

theorem find_insert_self {m : List (K × V)} {k : K} (v : V) (h : find m k = none) :
    find (insert m k v) k = some v := by
  simp [insert, h, find]

theorem find_insert_of_ne (m : List (K × V)) {k k' : K} (v : V) (h : k' ≠ k) :
    find (insert m k v) k' = find m k' := by
  unfold insert
  cases find m k with
  | some _ => rfl
  | none => simp [find, h.symm]

theorem find_erase_self (m : List (K × V)) (k : K) : find (erase m k) k = none := by
  rw [find_eq_none_iff]
  simp [keys, erase, List.mem_filter]

theorem find_erase_of_ne (m : List (K × V)) {k k' : K} (h : k' ≠ k) :
    find (erase m k) k' = find m k' := by
  induction m with
  | nil => simp [erase, find]
  | cons p rest ih =>
    obtain ⟨k0, v0⟩ := p
    have ih' : find (List.filter (fun p => decide (p.1 ≠ k)) rest) k' = find rest k' := ih
    by_cases h0 : k0 = k
    · have h1 : ¬ k0 = k' := fun e => h (e.symm.trans h0)
      have hf : erase ((k0, v0) :: rest) k = List.filter (fun p => decide (p.1 ≠ k)) rest := by
        simp [erase, List.filter_cons, h0]
      rw [hf, ih']
      simp [find, h1]
    · have hf : erase ((k0, v0) :: rest) k
          = (k0, v0) :: List.filter (fun p => decide (p.1 ≠ k)) rest := by
        simp [erase, List.filter_cons, h0]
      rw [hf]
      by_cases h1 : k0 = k'
      · simp [find, h1]
      · simp only [find, h1, if_false]
        exact ih'

end peloton.unordered_map

/-! ## The database part of the catalog cache -/

namespace peloton.catalog

open peloton.unordered_map

theorem GetDatabaseObject_eq_find (c : CatalogCache) (database_oid : oid_t) :
    GetDatabaseObject c database_oid = find c.database_objects_cache database_oid := by
  unfold GetDatabaseObject
  cases find c.database_objects_cache database_oid <;> rfl

theorem GetDatabaseObject_name_eq_find (c : CatalogCache) (database_name : String) :
    GetDatabaseObject_name c database_name = find c.database_name_cache database_name := by
  unfold GetDatabaseObject_name
  cases find c.database_name_cache database_name <;> rfl

/-- What a successful `InsertDatabaseObject` does: when the object is valid and
neither key is taken, the flag is `true` and both maps receive the object. -/
theorem InsertDatabaseObject_fresh (INVALID_OID : oid_t) (c : CatalogCache)
    (obj : DatabaseCatalogObject) (hv : obj.database_oid ≠ INVALID_OID)
    (ho : find c.database_objects_cache obj.database_oid = none)
    (hn : find c.database_name_cache obj.database_name = none) :
    InsertDatabaseObject INVALID_OID c (some obj) =
      (true,
        { c with
          database_objects_cache := insert c.database_objects_cache obj.database_oid obj
          database_name_cache := insert c.database_name_cache obj.database_name obj }) := by
  simp [InsertDatabaseObject, hv, ho, hn]

/-- C1 (counterexample): in the cache that holds only database `(1, "a")`, oid
`2` is valid and is not a key, yet inserting the object `(2, "a")` returns
`false`, because the name `"a"` is taken. -/
theorem InsertDatabaseObject_false_with_fresh_oid :
    (2 : oid_t) ≠ sampleInvalidOid ∧
      (2 : oid_t) ∉ keys cacheA.database_objects_cache ∧
      GetDatabaseObject cacheA 2 = none ∧
      (InsertDatabaseObject sampleInvalidOid cacheA (some ⟨2, "a"⟩)).1 = false := by
  decide

/-- C1 (amended): `InsertDatabaseObject` returns `false` exactly when the
object is null, or its oid is `INVALID_OID`, or its oid is already a key of
`database_objects_cache`, or its name is already a key of
`database_name_cache`; in every other case it returns `true`. -/
theorem InsertDatabaseObject_false_iff (INVALID_OID : oid_t) (c : CatalogCache)
    (o : Option DatabaseCatalogObject) :
    (InsertDatabaseObject INVALID_OID c o).1 = false ↔
      (o = none ∨ ∃ obj, o = some obj ∧
        (obj.database_oid = INVALID_OID ∨
          obj.database_oid ∈ keys c.database_objects_cache ∨
          obj.database_name ∈ keys c.database_name_cache)) := by
  cases o with
  | none => simp [InsertDatabaseObject]
  | some obj =>
    simp only [InsertDatabaseObject, reduceCtorEq, Option.some.injEq, exists_eq_left',
      false_or, ← find_isSome_iff]
    split_ifs <;> simp_all

/-- C2: inserting a non-null object with a valid oid whose oid and name are
both absent returns `true`; afterwards the lookup by its oid and the lookup by
its name return that object, and every other lookup by oid or by name returns
what it returned before. -/
theorem InsertDatabaseObject_then_lookup (INVALID_OID : oid_t) (c : CatalogCache)
    (obj : DatabaseCatalogObject) (hv : obj.database_oid ≠ INVALID_OID)
    (ho : GetDatabaseObject c obj.database_oid = none)
    (hn : GetDatabaseObject_name c obj.database_name = none) :
    (InsertDatabaseObject INVALID_OID c (some obj)).1 = true ∧
      GetDatabaseObject (InsertDatabaseObject INVALID_OID c (some obj)).2 obj.database_oid
        = some obj ∧
      GetDatabaseObject_name (InsertDatabaseObject INVALID_OID c (some obj)).2
        obj.database_name = some obj ∧
      (∀ k, k ≠ obj.database_oid →
        GetDatabaseObject (InsertDatabaseObject INVALID_OID c (some obj)).2 k
          = GetDatabaseObject c k) ∧
      (∀ n, n ≠ obj.database_name →
        GetDatabaseObject_name (InsertDatabaseObject INVALID_OID c (some obj)).2 n
          = GetDatabaseObject_name c n) := by
  rw [GetDatabaseObject_eq_find] at ho
  rw [GetDatabaseObject_name_eq_find] at hn
  rw [InsertDatabaseObject_fresh INVALID_OID c obj hv ho hn]
  simp only [GetDatabaseObject_eq_find, GetDatabaseObject_name_eq_find]
  refine ⟨trivial, find_insert_self obj ho, find_insert_self obj hn, ?_, ?_⟩
  · intro k hk
    exact find_insert_of_ne _ obj hk
  · intro n hk
    exact find_insert_of_ne _ obj hk

/-- C2 (witness): the object `(1, "a")` inserted into the empty cache. -/
theorem InsertDatabaseObject_then_lookup_witness :
    (InsertDatabaseObject sampleInvalidOid CatalogCache.empty (some ⟨1, "a"⟩)).1 = true ∧
      cacheA = ⟨[(1, ⟨1, "a"⟩)], [("a", ⟨1, "a"⟩)], []⟩ ∧
      GetDatabaseObject
        (InsertDatabaseObject sampleInvalidOid CatalogCache.empty (some ⟨1, "a"⟩)).2 1
        = some ⟨1, "a"⟩ ∧
      GetDatabaseObject_name
        (InsertDatabaseObject sampleInvalidOid CatalogCache.empty (some ⟨1, "a"⟩)).2 "a"
        = some ⟨1, "a"⟩ ∧
      (∀ k, k ≠ 1 →
        GetDatabaseObject
          (InsertDatabaseObject sampleInvalidOid CatalogCache.empty (some ⟨1, "a"⟩)).2 k
          = GetDatabaseObject CatalogCache.empty k) ∧
      (∀ n, n ≠ "a" →
        GetDatabaseObject_name
          (InsertDatabaseObject sampleInvalidOid CatalogCache.empty (some ⟨1, "a"⟩)).2 n
          = GetDatabaseObject_name CatalogCache.empty n) :=
  have h := InsertDatabaseObject_then_lookup sampleInvalidOid CatalogCache.empty ⟨1, "a"⟩
    (by decide) (by decide) (by decide)
  ⟨h.1, by decide, h.2⟩

/-- C3: `EvictDatabaseObject(database_oid)` returns `true` exactly when the oid
is a key of `database_objects_cache`; after a `true` return the lookup of that
oid returns null, and after a `false` return the cache is unchanged. -/
theorem EvictDatabaseObject_spec (c : CatalogCache) (database_oid : oid_t) :
    ((EvictDatabaseObject c database_oid).1 = true ↔
        database_oid ∈ keys c.database_objects_cache) ∧
      ((EvictDatabaseObject c database_oid).1 = true →
        GetDatabaseObject (EvictDatabaseObject c database_oid).2 database_oid = none) ∧
      ((EvictDatabaseObject c database_oid).1 = false →
        (EvictDatabaseObject c database_oid).2 = c) := by
  rw [← find_isSome_iff]
  unfold EvictDatabaseObject
  cases h : find c.database_objects_cache database_oid with
  | none => simp
  | some obj => simp [GetDatabaseObject_eq_find, find_erase_self]

/-- C5 (counterexample): looking up oid `5` in the empty cache returns null,
not an object (with the invalid oid or any other). -/
theorem GetDatabaseObject_not_found_is_null :
    (5 : oid_t) ∉ keys CatalogCache.empty.database_objects_cache ∧
      GetDatabaseObject CatalogCache.empty 5 = none ∧
      ¬ ∃ obj, GetDatabaseObject CatalogCache.empty 5 = some obj ∧
        obj.database_oid = sampleInvalidOid := by
  refine ⟨by decide, by decide, ?_⟩
  rintro ⟨obj, h, -⟩
  have h0 : GetDatabaseObject CatalogCache.empty 5 = none := by decide
  rw [h0] at h
  exact Option.noConfusion h

/-- C5 (amended): `GetDatabaseObject(database_oid)` returns the object cached
under that oid: when the oid is a key the result is a non-null object stored in
`database_objects_cache` under that key (the only one, keys being unique in a
map), and when the oid is not found the result is null. -/
theorem GetDatabaseObject_spec (c : CatalogCache) (database_oid : oid_t) :
    (database_oid ∈ keys c.database_objects_cache →
        ∃ obj, GetDatabaseObject c database_oid = some obj ∧
          (database_oid, obj) ∈ c.database_objects_cache) ∧
      (∀ obj, (keys c.database_objects_cache).Nodup →
        (database_oid, obj) ∈ c.database_objects_cache →
        GetDatabaseObject c database_oid = some obj) ∧
      (database_oid ∉ keys c.database_objects_cache →
        GetDatabaseObject c database_oid = none) := by
  rw [GetDatabaseObject_eq_find]
  refine ⟨?_, ?_, ?_⟩
  · intro h
    rw [← find_isSome_iff] at h
    obtain ⟨obj, ho⟩ := Option.isSome_iff_exists.1 h
    exact ⟨obj, ho, mem_of_find_eq_some ho⟩
  · intro obj hn hm
    exact find_eq_some_of_mem_nodup hn hm
  · intro h
    exact (find_eq_none_iff _ _).2 h

end peloton.catalog

/-! ## Reachable caches keep the oid map and the name map in step -/

namespace peloton.catalog

open peloton.unordered_map

theorem find_erase_eq_some {K V : Type} [DecidableEq K] {m : List (K × V)} {k k' : K} {v : V}
    (h : find (erase m k) k' = some v) : k' ≠ k ∧ find m k' = some v := by
  have hne : k' ≠ k := by
    intro e
    subst e
    rw [find_erase_self] at h
    exact Option.noConfusion h
  exact ⟨hne, by rw [← find_erase_of_ne m hne]; exact h⟩

theorem find_insert_eq_some {K V : Type} [DecidableEq K] {m : List (K × V)} {k k' : K}
    {v v' : V} (hk : find m k = none) (h : find (insert m k v) k' = some v') :
    (k' = k ∧ v' = v) ∨ (k' ≠ k ∧ find m k' = some v') := by
  by_cases e : k' = k
  · subst e
    rw [find_insert_self v hk] at h
    exact Or.inl ⟨rfl, (Option.some.inj h).symm⟩
  · rw [find_insert_of_ne m v e] at h
    exact Or.inr ⟨e, h⟩

theorem Consistent_empty : Consistent CatalogCache.empty := by
  constructor <;> intro k o h <;> simp [CatalogCache.empty, find] at h

theorem Consistent_insert (INVALID_OID : oid_t) (c : CatalogCache)
    (o : Option DatabaseCatalogObject) (hc : Consistent c) :
    Consistent (InsertDatabaseObject INVALID_OID c o).2 := by
  cases o with
  | none => simpa [InsertDatabaseObject] using hc
  | some obj =>
    by_cases hv : obj.database_oid = INVALID_OID
    · simpa [InsertDatabaseObject, hv] using hc
    cases ho : find c.database_objects_cache obj.database_oid with
    | some x => simpa [InsertDatabaseObject, hv, ho] using hc
    | none =>
      cases hn : find c.database_name_cache obj.database_name with
      | some x => simpa [InsertDatabaseObject, hv, ho, hn] using hc
      | none =>
        rw [InsertDatabaseObject_fresh INVALID_OID c obj hv ho hn]
        constructor
        · intro k o h
          rcases find_insert_eq_some ho h with ⟨hk, hob⟩ | ⟨hk, hf⟩
          · subst hob
            exact ⟨hk.symm, find_insert_self o hn⟩
          · obtain ⟨h1, h2⟩ := hc.1 k o hf
            refine ⟨h1, ?_⟩
            have hne : o.database_name ≠ obj.database_name := by
              intro e
              rw [e, hn] at h2
              exact Option.noConfusion h2
            exact (find_insert_of_ne _ obj hne).trans h2
        · intro n o h
          rcases find_insert_eq_some hn h with ⟨hk, hob⟩ | ⟨hk, hf⟩
          · subst hob
            exact ⟨hk.symm, find_insert_self o ho⟩
          · obtain ⟨h1, h2⟩ := hc.2 n o hf
            refine ⟨h1, ?_⟩
            have hne : o.database_oid ≠ obj.database_oid := by
              intro e
              rw [e, ho] at h2
              exact Option.noConfusion h2
            exact (find_insert_of_ne _ obj hne).trans h2

theorem Consistent_evict (c : CatalogCache) (database_oid : oid_t) (hc : Consistent c) :
    Consistent (EvictDatabaseObject c database_oid).2 := by
  unfold EvictDatabaseObject
  cases ho : find c.database_objects_cache database_oid with
  | none => exact hc
  | some obj =>
    obtain ⟨hobj1, hobj2⟩ := hc.1 _ _ ho
    constructor
    · intro k o h
      obtain ⟨hk, hf⟩ := find_erase_eq_some h
      obtain ⟨h1, h2⟩ := hc.1 k o hf
      refine ⟨h1, ?_⟩
      have hne : o.database_name ≠ obj.database_name := by
        intro e
        rw [e, hobj2] at h2
        have : obj = o := Option.some.inj h2
        subst this
        exact hk (h1.symm.trans hobj1)
      exact (find_erase_of_ne _ hne).trans h2
    · intro n o h
      obtain ⟨hk, hf⟩ := find_erase_eq_some h
      obtain ⟨h1, h2⟩ := hc.2 n o hf
      refine ⟨h1, ?_⟩
      have hne : o.database_oid ≠ database_oid := by
        intro e
        rw [e, ho] at h2
        have : obj = o := Option.some.inj h2
        subst this
        exact hk h1.symm
      exact (find_erase_of_ne _ hne).trans h2

theorem Consistent_evict_name (c : CatalogCache) (database_name : String)
    (hc : Consistent c) : Consistent (EvictDatabaseObject_name c database_name).2 := by
  unfold EvictDatabaseObject_name
  cases hn : find c.database_name_cache database_name with
  | none => exact hc
  | some obj =>
    obtain ⟨hobj1, hobj2⟩ := hc.2 _ _ hn
    constructor
    · intro k o h
      obtain ⟨hk, hf⟩ := find_erase_eq_some h
      obtain ⟨h1, h2⟩ := hc.1 k o hf
      refine ⟨h1, ?_⟩
      have hne : o.database_name ≠ database_name := by
        intro e
        rw [e, hn] at h2
        have : obj = o := Option.some.inj h2
        subst this
        exact hk h1.symm
      exact (find_erase_of_ne _ hne).trans h2
    · intro n o h
      obtain ⟨hk, hf⟩ := find_erase_eq_some h
      obtain ⟨h1, h2⟩ := hc.2 n o hf
      refine ⟨h1, ?_⟩
      have hne : o.database_oid ≠ obj.database_oid := by
        intro e
        rw [e, hobj2] at h2
        have : obj = o := Option.some.inj h2
        subst this
        exact hk (h1.symm.trans hobj1)
      exact (find_erase_of_ne _ hne).trans h2

theorem Reachable.consistent {INVALID_OID : oid_t} {c : CatalogCache}
    (h : Reachable INVALID_OID c) : Consistent c := by
  induction h with
  | empty => exact Consistent_empty
  | insert c o _ ih => exact Consistent_insert INVALID_OID c o ih
  | evict c k _ ih => exact Consistent_evict c k ih
  | evict_name c n _ ih => exact Consistent_evict_name c n ih

/-- C4: in every cache reachable from the empty cache by `InsertDatabaseObject`
and `EvictDatabaseObject` calls, `EvictDatabaseObject(database_name)` returns
`true` exactly when the name is a key of the name map, which is exactly when
some object retrievable by oid carries that name; and after a `true` return the
evicted object is retrieved neither by that name nor by its own oid (nor by any
other name or oid). -/
theorem EvictDatabaseObject_name_spec (INVALID_OID : oid_t) (c : CatalogCache)
    (database_name : String) (hr : Reachable INVALID_OID c) :
    ((EvictDatabaseObject_name c database_name).1 = true ↔
        database_name ∈ keys c.database_name_cache) ∧
      ((EvictDatabaseObject_name c database_name).1 = true ↔
        ∃ k obj, GetDatabaseObject c k = some obj ∧ obj.database_name = database_name) ∧
      ((EvictDatabaseObject_name c database_name).1 = true →
        ∃ obj, GetDatabaseObject_name c database_name = some obj ∧
          GetDatabaseObject_name (EvictDatabaseObject_name c database_name).2 database_name
            = none ∧
          GetDatabaseObject (EvictDatabaseObject_name c database_name).2 obj.database_oid
            = none ∧
          (∀ n, GetDatabaseObject_name (EvictDatabaseObject_name c database_name).2 n
            ≠ some obj) ∧
          (∀ k, GetDatabaseObject (EvictDatabaseObject_name c database_name).2 k
            ≠ some obj)) := by
  have hc := hr.consistent
  simp only [GetDatabaseObject_eq_find, GetDatabaseObject_name_eq_find]
  rw [← find_isSome_iff]
  unfold EvictDatabaseObject_name
  cases hn : find c.database_name_cache database_name with
  | none =>
    refine ⟨by simp, ?_, by simp⟩
    constructor
    · intro h
      exact absurd h (by simp)
    · rintro ⟨k, obj, hk, hname⟩
      have := (hc.1 k obj hk).2
      rw [hname, hn] at this
      exact Option.noConfusion this
  | some obj =>
    obtain ⟨hobj1, hobj2⟩ := hc.2 _ _ hn
    refine ⟨by simp, ?_, ?_⟩
    · constructor
      · intro _
        exact ⟨obj.database_oid, obj, hobj2, hobj1⟩
      · intro _
        rfl
    · intro _
      refine ⟨obj, rfl, find_erase_self _ _, find_erase_self _ _, ?_, ?_⟩
      · intro n h
        obtain ⟨hne, hf⟩ := find_erase_eq_some h
        exact hne ((hc.2 n obj hf).1.symm.trans hobj1)
      · intro k h
        obtain ⟨hne, hf⟩ := find_erase_eq_some h
        exact hne (hc.1 k obj hf).1.symm

/-- C4 (witness): evicting `"a"` from the cache that holds database `(1, "a")`. -/
theorem EvictDatabaseObject_name_spec_witness :
    Reachable sampleInvalidOid cacheA ∧
      EvictDatabaseObject_name cacheA "a" = (true, CatalogCache.empty) ∧
      ((EvictDatabaseObject_name cacheA "a").1 = true ↔
        "a" ∈ keys cacheA.database_name_cache) ∧
      ((EvictDatabaseObject_name cacheA "a").1 = true ↔
        ∃ k obj, GetDatabaseObject cacheA k = some obj ∧ obj.database_name = "a") ∧
      ((EvictDatabaseObject_name cacheA "a").1 = true →
        ∃ obj, GetDatabaseObject_name cacheA "a" = some obj ∧
          GetDatabaseObject_name (EvictDatabaseObject_name cacheA "a").2 "a" = none ∧
          GetDatabaseObject (EvictDatabaseObject_name cacheA "a").2 obj.database_oid
            = none ∧
          (∀ n, GetDatabaseObject_name (EvictDatabaseObject_name cacheA "a").2 n
            ≠ some obj) ∧
          (∀ k, GetDatabaseObject (EvictDatabaseObject_name cacheA "a").2 k ≠ some obj)) :=
  have hr : Reachable sampleInvalidOid cacheA :=
    Reachable.insert CatalogCache.empty (some ⟨1, "a"⟩) Reachable.empty
  ⟨hr, by decide, EvictDatabaseObject_name_spec sampleInvalidOid cacheA "a" hr⟩

end peloton.catalog

/-! ## The sequence part of the catalog cache -/

namespace peloton.catalog

open peloton.unordered_map

theorem GetSequenceObject_eq_find (key_hash : String × Nat → Nat) (c : CatalogCache)
    (sequence_name : String) (database_oid : oid_t) :
    GetSequenceObject key_hash c sequence_name database_oid =
      find c.sequence_objects_cache (GetHashKey key_hash sequence_name database_oid) := by
  unfold GetSequenceObject
  simp only
  cases find c.sequence_objects_cache (GetHashKey key_hash sequence_name database_oid) <;> rfl

/-- The lookup by hash key finds an object exactly when a cached sequence has
the pair, provided entries sit under their own hash key and the hash does not
confuse the pair with another cached one. -/
theorem find_isSome_iff_pair_cached (key_hash : String × Nat → Nat) (c : CatalogCache)
    (sequence_name : String) (database_oid : oid_t) (hk : SeqKeyed key_hash c)
    (hn : NoCollision key_hash c sequence_name database_oid) :
    (find c.sequence_objects_cache (GetHashKey key_hash sequence_name database_oid)).isSome
        = true ↔
      ∃ k o, (k, o) ∈ c.sequence_objects_cache ∧
        o.seq_name = sequence_name ∧ o.db_oid = database_oid := by
  constructor
  · intro h
    obtain ⟨o, ho⟩ := Option.isSome_iff_exists.1 h
    have hm := mem_of_find_eq_some ho
    exact ⟨_, o, hm, hn _ o hm (hk _ o hm).symm⟩
  · rintro ⟨k, o, hm, h1, h2⟩
    rw [find_isSome_iff]
    have e := hk k o hm
    rw [h1, h2] at e
    rw [← e]
    exact List.mem_map_of_mem Prod.fst hm

/-- C6 (counterexample): the empty cache holds no sequence at all, yet
inserting the sequence `("s", db_oid 1)` whose `seq_oid` is `INVALID_OID`
returns `false`. -/
theorem InsertSequenceObject_false_in_empty_cache :
    CatalogCache.empty.sequence_objects_cache = [] ∧
      GetSequenceObject sampleHash CatalogCache.empty "s" 1 = none ∧
      (InsertSequenceObject sampleInvalidOid sampleHash CatalogCache.empty
        (some ⟨sampleInvalidOid, "s", 1⟩)).1 = false := by
  decide

/-- C6 (amended): `InsertSequenceObject` rejects a null object and an object
whose `seq_oid` is `INVALID_OID`; for a non-null object with a valid `seq_oid`
it returns `true` whenever `GetSequenceObject(seq_name, db_oid)` finds nothing,
and the object is then the one that lookup returns.  When entries sit under
their own hash key and the hash does not confuse the pair with another cached
one, "finds nothing" is the same as "no cached sequence has the pair". -/
theorem InsertSequenceObject_spec (INVALID_OID : oid_t) (key_hash : String × Nat → Nat)
    (c : CatalogCache) (o : Option SequenceCatalogObject) :
    (o = none → InsertSequenceObject INVALID_OID key_hash c o = (false, c)) ∧
      (∀ obj, o = some obj → obj.seq_oid = INVALID_OID →
        InsertSequenceObject INVALID_OID key_hash c o = (false, c)) ∧
      (∀ obj, o = some obj → obj.seq_oid ≠ INVALID_OID →
        GetSequenceObject key_hash c obj.seq_name obj.db_oid = none →
        (InsertSequenceObject INVALID_OID key_hash c o).1 = true ∧
          GetSequenceObject key_hash (InsertSequenceObject INVALID_OID key_hash c o).2
            obj.seq_name obj.db_oid = some obj) ∧
      (∀ obj, o = some obj → obj.seq_oid ≠ INVALID_OID →
        SeqKeyed key_hash c → NoCollision key_hash c obj.seq_name obj.db_oid →
        (¬ ∃ k o', (k, o') ∈ c.sequence_objects_cache ∧
          o'.seq_name = obj.seq_name ∧ o'.db_oid = obj.db_oid) →
        (InsertSequenceObject INVALID_OID key_hash c o).1 = true) := by
  refine ⟨?_, ?_, ?_, ?_⟩
  · rintro rfl
    rfl
  · rintro obj rfl hv
    simp [InsertSequenceObject, hv]
  · rintro obj rfl hv hg
    rw [GetSequenceObject_eq_find] at hg
    have hr : InsertSequenceObject INVALID_OID key_hash c (some obj) =
        (true,
          { c with
            sequence_objects_cache :=
              unordered_map.insert c.sequence_objects_cache
                (GetHashKey key_hash obj.seq_name obj.db_oid) obj }) := by
      simp [InsertSequenceObject, hv, hg]
    rw [hr, GetSequenceObject_eq_find]
    exact ⟨rfl, find_insert_self obj hg⟩
  · rintro obj rfl hv hk hn hnone
    rw [← find_isSome_iff_pair_cached key_hash c _ _ hk hn] at hnone
    simp [InsertSequenceObject, hv, hnone]

/-- The database operations leave the sequence map alone, so they keep every
sequence under the hash key of its own pair. -/
theorem SeqKeyed_database_ops (INVALID_OID : oid_t) (key_hash : String × Nat → Nat)
    (c : CatalogCache) (hc : SeqKeyed key_hash c) :
    (∀ o, SeqKeyed key_hash (InsertDatabaseObject INVALID_OID c o).2) ∧
      (∀ k, SeqKeyed key_hash (EvictDatabaseObject c k).2) ∧
      (∀ n, SeqKeyed key_hash (EvictDatabaseObject_name c n).2) := by
  refine ⟨?_, ?_, ?_⟩
  · intro o
    have e : (InsertDatabaseObject INVALID_OID c o).2.sequence_objects_cache
        = c.sequence_objects_cache := by
      cases o with
      | none => rfl
      | some obj =>
        unfold InsertDatabaseObject
        simp only
        split_ifs <;> rfl
    intro k x hm
    rw [e] at hm
    exact hc k x hm
  · intro k
    have e : (EvictDatabaseObject c k).2.sequence_objects_cache
        = c.sequence_objects_cache := by
      unfold EvictDatabaseObject
      cases find c.database_objects_cache k <;> rfl
    intro k' x hm
    rw [e] at hm
    exact hc k' x hm
  · intro n
    have e : (EvictDatabaseObject_name c n).2.sequence_objects_cache
        = c.sequence_objects_cache := by
      unfold EvictDatabaseObject_name
      cases find c.database_name_cache n <;> rfl
    intro k' x hm
    rw [e] at hm
    exact hc k' x hm

/-- C6 (witness of the amended claim): the valid sequence `(9, "s", 1)`
inserted into the empty cache is accepted and is then found by its pair. -/
theorem InsertSequenceObject_spec_witness :
    (9 : oid_t) ≠ sampleInvalidOid ∧
      GetSequenceObject sampleHash CatalogCache.empty "s" 1 = none ∧
      (InsertSequenceObject sampleInvalidOid sampleHash CatalogCache.empty
          (some ⟨9, "s", 1⟩)).1 = true ∧
      GetSequenceObject sampleHash
        (InsertSequenceObject sampleInvalidOid sampleHash CatalogCache.empty
          (some ⟨9, "s", 1⟩)).2 "s" 1 = some ⟨9, "s", 1⟩ :=
  have hv : (9 : oid_t) ≠ sampleInvalidOid := by decide
  have hg : GetSequenceObject sampleHash CatalogCache.empty "s" 1 = none := by decide
  ⟨hv, hg,
    (InsertSequenceObject_spec sampleInvalidOid sampleHash CatalogCache.empty
      (some ⟨9, "s", 1⟩)).2.2.1 ⟨9, "s", 1⟩ rfl hv hg⟩

end peloton.catalog

/-! ## The backend-logger registry -/

namespace peloton.logging

theorem mem_filter_ne (l : List BackendLogger) (b x : BackendLogger) :
    x ∈ l.filter (fun y => decide (y ≠ b)) ↔ x ∈ l ∧ x ≠ b := by
  simp [List.mem_filter]

theorem filter_ne_eq_self (l : List BackendLogger) (b : BackendLogger) (h : b ∉ l) :
    l.filter (fun y => decide (y ≠ b)) = l := by
  rw [List.filter_eq_self]
  intro a ha
  have : a ≠ b := fun e => h (e ▸ ha)
  simpa using this

/-- C8: `RemoveBackendLogger(b)` returns `true` exactly when `b` was registered
before the call; afterwards `b` is not registered, every other backend is
registered exactly when it was before, and removing an unknown backend returns
`false` and leaves the registry unchanged. -/
theorem RemoveBackendLogger_spec (fl : FrontendLogger) (b : BackendLogger) :
    ((RemoveBackendLogger fl b).1 = true ↔ b ∈ fl.backend_loggers) ∧
      b ∉ (RemoveBackendLogger fl b).2.backend_loggers ∧
      (∀ x, x ≠ b →
        (x ∈ (RemoveBackendLogger fl b).2.backend_loggers ↔ x ∈ fl.backend_loggers)) ∧
      (b ∉ fl.backend_loggers →
        (RemoveBackendLogger fl b).1 = false ∧ (RemoveBackendLogger fl b).2 = fl) := by
  refine ⟨?_, ?_, ?_, ?_⟩
  · simp [RemoveBackendLogger]
  · simp [RemoveBackendLogger]
  · intro x hx
    simp only [RemoveBackendLogger, mem_filter_ne]
    exact ⟨fun h => h.1, fun h => ⟨h, hx⟩⟩
  · intro h
    refine ⟨by simp [RemoveBackendLogger, h], ?_⟩
    simp only [RemoveBackendLogger]
    rw [filter_ne_eq_self _ _ h]

/-- C9 (counterexample): registering backend `7` a second time and registering
it for the first time hand the same value back to the caller (the call is
`void`), so nothing the caller receives tells the two apart. -/
theorem AddBackendLogger_reports_nothing :
    (AddBackendLogger ⟨[7]⟩ 7).2 = ⟨[7]⟩ ∧
      (AddBackendLogger ⟨[]⟩ 7).2 = ⟨[7]⟩ ∧
      (AddBackendLogger ⟨[7]⟩ 7).1 = (AddBackendLogger ⟨[]⟩ 7).1 ∧
      ¬ ∃ told : Unit → Bool,
        told (AddBackendLogger ⟨[7]⟩ 7).1 = true ∧ told (AddBackendLogger ⟨[]⟩ 7).1 = false := by
  refine ⟨by decide, by decide, rfl, ?_⟩
  rintro ⟨told, h1, h2⟩
  rw [show (AddBackendLogger ⟨[7]⟩ 7).1 = () from rfl] at h1
  rw [show (AddBackendLogger ⟨[]⟩ 7).1 = () from rfl, h1] at h2
  exact Bool.noConfusion h2

/-- C9 (amended): after `AddBackendLogger(b)` the backend `b` is registered; if
`b` was already registered the call is a no-op and the registry is unchanged;
`b` occurs exactly once afterwards whenever it occurred at most once before;
every other backend is registered exactly when it was before. -/
theorem AddBackendLogger_spec (fl : FrontendLogger) (b : BackendLogger) :
    b ∈ (AddBackendLogger fl b).2.backend_loggers ∧
      (b ∈ fl.backend_loggers → (AddBackendLogger fl b).2 = fl) ∧
      (fl.backend_loggers.count b ≤ 1 →
        (AddBackendLogger fl b).2.backend_loggers.count b = 1) ∧
      (∀ x, x ≠ b →
        (x ∈ (AddBackendLogger fl b).2.backend_loggers ↔ x ∈ fl.backend_loggers)) := by
  unfold AddBackendLogger
  by_cases h : b ∈ fl.backend_loggers
  · rw [if_pos h]
    refine ⟨h, fun _ => rfl, ?_, fun _ _ => Iff.rfl⟩
    intro hc
    have hpos : 0 < fl.backend_loggers.count b := List.count_pos_iff.2 h
    show fl.backend_loggers.count b = 1
    omega
  · rw [if_neg h]
    refine ⟨by simp, fun h' => absurd h' h, ?_, ?_⟩
    · intro _
      simp [List.count_eq_zero_of_not_mem h]
    · intro x hx
      simp [hx]

/-- The registry never holds a backend twice, once it is built by registrations
and removals from the empty registry. -/
theorem runOps_nodup (ops : List RegistryOp) (fl : FrontendLogger)
    (h : fl.backend_loggers.Nodup) : (runOps fl ops).backend_loggers.Nodup := by
  induction ops generalizing fl with
  | nil => exact h
  | cons op rest ih =>
    apply ih
    cases op with
    | add b =>
      show (AddBackendLogger fl b).2.backend_loggers.Nodup
      unfold AddBackendLogger
      by_cases hb : b ∈ fl.backend_loggers
      · simpa [hb] using h
      · simp only [hb, if_false]
        exact List.Nodup.append h (List.nodup_singleton b) (by simpa using hb)
    | remove b => exact List.Nodup.filter _ h

/-- The registry seen as a value: `GetBackendLoggers` returns the registered
backends and the registry it was called on, and `snapshotThen` pairs that
result with the registry after later registrations and removals. -/
theorem GetBackendLoggers_snapshot (fl : FrontendLogger) (ops : List RegistryOp) :
    (GetBackendLoggers fl).1 = fl.backend_loggers ∧
      (∀ b, b ∈ (GetBackendLoggers fl).1 ↔ b ∈ fl.backend_loggers) ∧
      (GetBackendLoggers fl).2 = fl ∧
      (snapshotThen fl ops).1 = (GetBackendLoggers fl).1 ∧
      (snapshotThen fl ops).2 = runOps fl ops :=
  ⟨rfl, fun _ => Iff.rfl, rfl, rfl, rfl⟩

/-- A snapshot of the registry `[1, 2]` stays `[1, 2]` while backend `3` is
added and backend `1` is removed; the registry itself becomes `[2, 3]`. -/
theorem snapshotThen_example :
    snapshotThen ⟨[1, 2]⟩ [.add 3, .remove 1] = ([1, 2], ⟨[2, 3]⟩) := by
  decide

end peloton.logging

/-! ## Backend buffers: first in, first out -/

namespace peloton.logging

theorem foldl_AppendRecord (records : List LogRecord) (b : BackendLoggerObject) :
    records.foldl AppendRecord b = { b with buffer := b.buffer ++ records } := by
  induction records generalizing b with
  | nil => simp
  | cons r rest ih =>
    rw [List.foldl_cons, ih]
    simp [AppendRecord]

/-- C13: after any sequence of `AppendRecord` calls on a backend logger,
`DrainRecords` returns what the buffer held before followed by the appended
records in the order of the calls (exactly the appended records when the backend
was fresh or had just been drained), and leaves the buffer empty, so that a
second drain returns nothing. -/
theorem DrainRecords_fifo (b : BackendLoggerObject) (records : List LogRecord) :
    (DrainRecords (records.foldl AppendRecord b)).1 = b.buffer ++ records ∧
      (b.buffer = [] → (DrainRecords (records.foldl AppendRecord b)).1 = records) ∧
      (DrainRecords (records.foldl AppendRecord (DrainRecords b).2)).1 = records ∧
      (DrainRecords (records.foldl AppendRecord b)).2.buffer = [] ∧
      (DrainRecords (DrainRecords (records.foldl AppendRecord b)).2).1 = [] := by
  rw [foldl_AppendRecord records b, foldl_AppendRecord records (DrainRecords b).2]
  exact ⟨rfl, fun h => by simp [DrainRecords, h], by simp [DrainRecords], rfl, rfl⟩

end peloton.logging

/-! ## Recovery: which records are re-applied -/

namespace peloton.logging

open peloton.unordered_map

theorem firstRecord_some {log : List LogRecord} {tid : Nat} {k : RecordKind} {r : LogRecord}
    (h : firstRecord log tid k = some r) :
    r ∈ log ∧ r.transaction_id = tid ∧ r.record_kind = k := by
  unfold firstRecord at h
  have h1 := List.find?_some h
  have h2 := List.mem_of_find?_eq_some h
  simp only [Bool.and_eq_true, decide_eq_true_eq] at h1
  exact ⟨h2, h1.1, h1.2⟩

theorem firstRecord_isSome {log : List LogRecord} {tid : Nat} {k : RecordKind} {r : LogRecord}
    (hm : r ∈ log) (ht : r.transaction_id = tid) (hk : r.record_kind = k) :
    ∃ x, firstRecord log tid k = some x := by
  cases h : firstRecord log tid k with
  | some x => exact ⟨x, rfl⟩
  | none =>
    unfold firstRecord at h
    have := List.find?_eq_none.1 h r hm
    simp [ht, hk] at this

theorem find_insert_of_find_some {K V : Type} [DecidableEq K] {m : List (K × V)} {k : K}
    {e : V} (v : V) (h : find m k = some e) : unordered_map.insert m k v = m := by
  unfold unordered_map.insert
  rw [h]

/-- The table entry of a transaction: the one already there, or else the entry
opened by the first Begin record of the transaction. -/
theorem find_foldl_table (full log : List LogRecord) (table : List (Nat × TxnEntry))
    (tid : Nat) :
    find
        (log.foldl
          (fun table r =>
            if r.record_kind = .Begin then
              unordered_map.insert table r.transaction_id
                ⟨r.lsn, terminalRecord full r.transaction_id⟩
            else table)
          table) tid =
      match find table tid with
      | some e => some e
      | none =>
        (firstRecord log tid .Begin).map
          (fun b => (⟨b.lsn, terminalRecord full tid⟩ : TxnEntry)) := by
  induction log generalizing table with
  | nil =>
    simp only [List.foldl_nil, firstRecord, List.find?_nil, Option.map_none']
    cases find table tid <;> rfl
  | cons r rest ih =>
    rw [List.foldl_cons, ih]
    by_cases hk : r.record_kind = .Begin
    · by_cases ht : r.transaction_id = tid
      · subst ht
        have hfirst : firstRecord (r :: rest) r.transaction_id .Begin = some r := by
          simp [firstRecord, List.find?_cons, hk]
        cases hf : find table r.transaction_id with
        | some e =>
          simp only [hk, if_true]
          rw [find_insert_of_find_some _ hf, hf]
        | none =>
          simp only [hk, if_true]
          rw [find_insert_self _ hf, hfirst]
          rfl
      · have hfirst : firstRecord (r :: rest) tid .Begin = firstRecord rest tid .Begin := by
          simp [firstRecord, List.find?_cons, ht]
        simp only [hk, if_true]
        rw [find_insert_of_ne table _ (Ne.symm ht), hfirst]
    · have hfirst : firstRecord (r :: rest) tid .Begin = firstRecord rest tid .Begin := by
        simp [firstRecord, List.find?_cons, hk]
      simp only [hk, if_false]
      rw [hfirst]

theorem find_transactionTable (log : List LogRecord) (tid : Nat) :
    find (transactionTable log) tid =
      (firstRecord log tid .Begin).map
        (fun b => (⟨b.lsn, terminalRecord log tid⟩ : TxnEntry)) := by
  unfold transactionTable
  rw [find_foldl_table]
  rfl

/-- A transaction counts as committed exactly when the log holds a Begin record
and a Commit record of it. -/
theorem isCommitted_iff (log : List LogRecord) (tid : Nat) :
    isCommitted (transactionTable log) tid = true ↔
      (∃ b ∈ log, b.transaction_id = tid ∧ b.record_kind = .Begin) ∧
        (∃ c ∈ log, c.transaction_id = tid ∧ c.record_kind = .Commit) := by
  unfold isCommitted
  rw [find_transactionTable]
  constructor
  · intro h
    cases hb : firstRecord log tid .Begin with
    | none => simp [hb] at h
    | some b =>
      refine ⟨⟨b, firstRecord_some hb⟩, ?_⟩
      simp only [hb, Option.map_some', terminalRecord] at h
      cases hc : firstRecord log tid .Commit with
      | some c => exact ⟨c, firstRecord_some hc⟩
      | none =>
        simp only [hc] at h
        cases ha : firstRecord log tid .Abort with
        | none => simp [ha] at h
        | some a =>
          simp only [ha, decide_eq_true_eq] at h
          have := (firstRecord_some ha).2.2
          rw [h] at this
          exact RecordKind.noConfusion this
  · rintro ⟨⟨b, hb, hbt, hbk⟩, ⟨c, hc, hct, hck⟩⟩
    obtain ⟨b', hb'⟩ := firstRecord_isSome hb hbt hbk
    obtain ⟨c', hc'⟩ := firstRecord_isSome hc hct hck
    simp only [hb', Option.map_some', terminalRecord, hc', decide_eq_true_eq]
    exact (firstRecord_some hc').2.2

theorem mem_redoRecords (raw : List (Option LogRecord)) (r : LogRecord) :
    r ∈ redoRecords raw ↔
      r ∈ readable raw ∧ isMutation r.record_kind = true ∧
        isCommitted (transactionTable (readable raw)) r.transaction_id = true := by
  unfold redoRecords
  rw [List.mem_insertionSort, List.mem_filter, Bool.and_eq_true]

theorem mem_of_mem_readable {raw : List (Option LogRecord)} {r : LogRecord}
    (h : r ∈ readable raw) : some r ∈ raw := by
  induction raw with
  | nil => simp [readable] at h
  | cons x rest ih =>
    cases x with
    | none => simp [readable] at h
    | some y =>
      simp only [readable, List.mem_cons] at h
      rcases h with e | e
      · simp [e]
      · exact List.mem_cons_of_mem _ (ih e)

theorem readable_map_some_append (log : List LogRecord) (torn : List (Option LogRecord)) :
    readable (log.map some ++ torn) = log ++ readable torn := by
  induction log with
  | nil => simp
  | cons r rest ih => simp [readable, ih]

/-- C12: when the durable log holds no Commit record of transaction `T`,
`DoRecovery` hands no record of `T` to the storage engine: what it applies is
the storage engine's earlier contents followed by the redo records, and none of
the redo records (Insert, Delete or Update) belongs to `T`. -/
theorem DoRecovery_no_phantom_commit (storage : StorageEngine)
    (raw : List (Option LogRecord)) (T : Nat)
    (h : ∀ c, some c ∈ raw → c.transaction_id = T → c.record_kind ≠ .Commit) :
    (DoRecovery storage raw).storage.applied = storage.applied ++ redoRecords raw ∧
      (∀ r ∈ redoRecords raw, isMutation r.record_kind = true) ∧
      (∀ r ∈ redoRecords raw, r.transaction_id ≠ T) := by
  refine ⟨rfl, ?_, ?_⟩
  · intro r hr
    exact ((mem_redoRecords raw r).1 hr).2.1
  · intro r hr ht
    obtain ⟨-, -, hc⟩ := (mem_redoRecords raw r).1 hr
    obtain ⟨-, c, hcm, hct, hck⟩ := (isCommitted_iff _ _).1 hc
    exact h c (mem_of_mem_readable hcm) (hct.trans ht) hck

end peloton.logging

/-! ## From an acknowledged flush to recovery -/

namespace peloton.logging

theorem mem_assignLsns {start : Nat} {records : List LogRecord} {r : LogRecord}
    (h : r ∈ assignLsns start records) :
    start ≤ r.lsn ∧ r.lsn < start + records.length := by
  induction records generalizing start with
  | nil => simp [assignLsns] at h
  | cons x rest ih =>
    simp only [assignLsns, List.mem_cons] at h
    rcases h with e | e
    · subst e
      simp
    · have := ih e
      simp only [List.length_cons]
      omega

theorem le_maxLsn (records : List LogRecord) (floor : Nat) :
    floor ≤ maxLsn records floor ∧ ∀ r ∈ records, r.lsn ≤ maxLsn records floor := by
  induction records generalizing floor with
  | nil => simp [maxLsn]
  | cons x rest ih =>
    obtain ⟨h1, h2⟩ := ih (max floor x.lsn)
    refine ⟨le_trans (le_max_left _ _) h1, ?_⟩
    intro r hr
    rcases List.mem_cons.1 hr with e | e
    · subst e
      exact le_trans (le_max_right _ _) h1
    · exact h2 r e

theorem maxLsn_lt (records : List LogRecord) (floor n : Nat) (hf : floor < n)
    (h : ∀ r ∈ records, r.lsn < n) : maxLsn records floor < n := by
  induction records generalizing floor with
  | nil => simpa [maxLsn] using hf
  | cons x rest ih =>
    apply ih
    · exact max_lt hf (h x (List.mem_cons_self _ _))
    · intro r hr
      exact h r (List.mem_cons_of_mem _ hr)

theorem LsnInvariant_start (backends : List (BackendLogger × BackendLoggerObject)) :
    LsnInvariant (LoggingSystem.start backends) := by
  refine ⟨?_, ?_, ?_⟩ <;> simp [LoggingSystem.start]

theorem LsnInvariant_run (s : LoggingSystem) (op : LogOp) (h : LsnInvariant s) :
    LsnInvariant (op.run s) := by
  obtain ⟨h1, h2, h3⟩ := h
  cases op with
  | append b record => exact ⟨h1, h2, h3⟩
  | collect =>
    refine ⟨h1, ?_, ?_⟩
    · intro r hr
      show s.flushed_lsn < r.lsn ∧ r.lsn < s.next_lsn + (drainAll s.backends).1.length
      rcases List.mem_append.1 hr with e | e
      · have := h2 r e
        omega
      · have := mem_assignLsns e
        omega
    · show s.flushed_lsn < s.next_lsn + (drainAll s.backends).1.length
      omega
  | flush confirmed =>
    cases confirmed with
    | false => exact ⟨h1, h2, h3⟩
    | true =>
      obtain ⟨m1, m2⟩ := le_maxLsn s.collected s.flushed_lsn
      refine ⟨?_, ?_, ?_⟩
      · intro r hr
        show r.lsn ≤ maxLsn s.collected s.flushed_lsn
        rcases List.mem_append.1 hr with e | e
        · exact le_trans (h1 r e) m1
        · exact m2 r e
      · intro r hr
        exact absurd hr (List.not_mem_nil r)
      · show maxLsn s.collected s.flushed_lsn < s.next_lsn
        exact maxLsn_lt _ _ _ h3 (fun r hr => (h2 r hr).2)

theorem LsnInvariant_runLog (ops : List LogOp) (s : LoggingSystem) (h : LsnInvariant s) :
    LsnInvariant (runLog s ops) := by
  induction ops generalizing s with
  | nil => exact h
  | cons op rest ih => exact ih (op.run s) (LsnInvariant_run s op h)

/-- A record with an acknowledged LSN is in the sink. -/
theorem mem_sink_of_acknowledged {s : LoggingSystem} {r : LogRecord}
    (hi : LsnInvariant s) (h : acknowledged s r) : r ∈ s.sink := by
  rcases List.mem_append.1 h.1 with e | e
  · exact e
  · have := (hi.2.1 r e).1
    have := h.2
    omega

/-- C11 (counterexample): scenario B followed by an acknowledged flush.  The
record `Insert(T2, row 22)` got LSN `2`, the flush was acknowledged with
`flushed_lsn = 2`, and recovery after the crash applies nothing: `T2` has no
Commit record. -/
theorem DoRecovery_drops_flushed_uncommitted_record :
    (⟨2, 2, .Insert, 22, none⟩ : LogRecord) ∈ scenarioB.sink ∧
      scenarioB.flushed_lsn = 2 ∧
      (DoRecovery ⟨[]⟩ (crash scenarioB [])).storage.applied = [] ∧
      (⟨2, 2, .Insert, 22, none⟩ : LogRecord) ∉
        (DoRecovery ⟨[]⟩ (crash scenarioB [])).storage.applied := by
  decide

theorem issued_append (l1 l2 : List LogOp) (s : LoggingSystem) :
    issued s (l1 ++ l2) = issued s l1 ++ issued (runLog s l1) l2 := by
  induction l1 generalizing s with
  | nil => rfl
  | cons op rest ih =>
    show _ ++ issued (op.run s) (rest ++ l2) = (_ ++ issued (op.run s) rest) ++ _
    rw [ih, List.append_assoc]
    rfl

/-- Every record that has been given an LSN is in the sink or in the collected
batch: nothing is dropped on the way. -/
theorem sink_collected_eq (ops : List LogOp) (s : LoggingSystem) :
    (runLog s ops).sink ++ (runLog s ops).collected =
      s.sink ++ s.collected ++ issued s ops := by
  induction ops generalizing s with
  | nil => simp [runLog, issued]
  | cons op rest ih =>
    show (runLog (op.run s) rest).sink ++ (runLog (op.run s) rest).collected = _
    rw [ih]
    cases op with
    | append b record => simp [issued, LogOp.run, appendAt]
    | collect => simp [issued, LogOp.run, CollectLogRecord]
    | flush confirmed =>
      cases confirmed <;> simp [issued, LogOp.run, Flush]

theorem flushed_lsn_mono (ops : List LogOp) (s : LoggingSystem) :
    s.flushed_lsn ≤ (runLog s ops).flushed_lsn := by
  induction ops generalizing s with
  | nil => exact le_refl _
  | cons op rest ih =>
    refine le_trans ?_ (ih (op.run s))
    cases op with
    | append b record => exact le_refl _
    | collect => exact le_refl _
    | flush confirmed =>
      cases confirmed with
      | false => exact le_refl _
      | true => exact (le_maxLsn s.collected s.flushed_lsn).1

theorem mem_sink_runLog (ops : List LogOp) (s : LoggingSystem) {x : LogRecord}
    (h : x ∈ s.sink) : x ∈ (runLog s ops).sink := by
  induction ops generalizing s with
  | nil => exact h
  | cons op rest ih =>
    apply ih
    cases op with
    | append b record => exact h
    | collect => exact h
    | flush confirmed =>
      cases confirmed with
      | false => exact h
      | true => exact List.mem_append_left _ h

theorem map_fst_drainAll (backends : List (BackendLogger × BackendLoggerObject)) :
    (drainAll backends).2.map Prod.fst = backends.map Prod.fst := by
  induction backends with
  | nil => rfl
  | cons p rest ih =>
    obtain ⟨a, obj⟩ := p
    simp [drainAll, ih]

theorem map_fst_run (s : LoggingSystem) (op : LogOp) :
    (op.run s).backends.map Prod.fst = s.backends.map Prod.fst := by
  cases op with
  | append b record =>
    show (s.backends.map _).map Prod.fst = _
    rw [List.map_map]
    apply List.map_congr_left
    intro p _
    by_cases h : p.1 = b <;> simp [h]
  | collect => exact map_fst_drainAll s.backends
  | flush confirmed => cases confirmed <;> rfl

theorem map_fst_runLog (ops : List LogOp) (s : LoggingSystem) :
    (runLog s ops).backends.map Prod.fst = s.backends.map Prod.fst := by
  induction ops generalizing s with
  | nil => rfl
  | cons op rest ih => exact (ih (op.run s)).trans (map_fst_run s op)

theorem inBuffer_appendAt_self (s : LoggingSystem) (a : BackendLogger) (x : LogRecord)
    (h : a ∈ s.backends.map Prod.fst) : inBuffer (appendAt s a x) x := by
  obtain ⟨p, hp, hpa⟩ := List.mem_map.1 h
  refine ⟨(p.1, AppendRecord p.2 x), ?_, by simp [AppendRecord]⟩
  show _ ∈ s.backends.map _
  exact List.mem_map.2 ⟨p, hp, by simp [hpa]⟩

theorem inBuffer_appendAt (s : LoggingSystem) (a : BackendLogger) (x y : LogRecord)
    (h : inBuffer s y) : inBuffer (appendAt s a x) y := by
  obtain ⟨p, hp, hy⟩ := h
  by_cases hpa : p.1 = a
  · refine ⟨(p.1, AppendRecord p.2 x), ?_, by simp [AppendRecord, hy]⟩
    show _ ∈ s.backends.map _
    exact List.mem_map.2 ⟨p, hp, by simp [hpa]⟩
  · refine ⟨p, ?_, hy⟩
    show _ ∈ s.backends.map _
    exact List.mem_map.2 ⟨p, hp, by simp [hpa]⟩

theorem mem_drainAll (backends : List (BackendLogger × BackendLoggerObject))
    {p : BackendLogger × BackendLoggerObject} {y : LogRecord}
    (hp : p ∈ backends) (hy : y ∈ p.2.buffer) : y ∈ (drainAll backends).1 := by
  induction backends with
  | nil => simp at hp
  | cons q rest ih =>
    obtain ⟨a, obj⟩ := q
    show y ∈ (DrainRecords obj).1 ++ (drainAll rest).1
    rcases List.mem_cons.1 hp with e | e
    · subst e
      exact List.mem_append_left _ hy
    · exact List.mem_append_right _ (ih e)

theorem exists_mem_assignLsns (start : Nat) (records : List LogRecord) {y : LogRecord}
    (h : y ∈ records) :
    ∃ y' ∈ assignLsns start records, y' = { y with lsn := y'.lsn } := by
  induction records generalizing start with
  | nil => simp at h
  | cons x rest ih =>
    rcases List.mem_cons.1 h with e | e
    · subst e
      exact ⟨{ y with lsn := start }, List.mem_cons_self _ _, rfl⟩
    · obtain ⟨y', hy', hc⟩ := ih (start + 1) e
      exact ⟨y', List.mem_cons_of_mem _ hy', hc⟩

/-- A record that sits in a backend buffer is given an LSN by the next
collection. -/
theorem issued_of_inBuffer (mid rest : List LogOp) (s : LoggingSystem) {y : LogRecord}
    (h : inBuffer s y) :
    ∃ y' ∈ issued s (mid ++ (.collect :: rest)), y' = { y with lsn := y'.lsn } := by
  induction mid generalizing s with
  | nil =>
    obtain ⟨p, hp, hy⟩ := h
    obtain ⟨y', hy', hc⟩ := exists_mem_assignLsns s.next_lsn _ (mem_drainAll s.backends hp hy)
    exact ⟨y', List.mem_append_left _ hy', hc⟩
  | cons op more ih =>
    cases op with
    | append b record =>
      obtain ⟨y', hy', hc⟩ := ih (appendAt s b record) (inBuffer_appendAt s b record y h)
      exact ⟨y', List.mem_append_right _ hy', hc⟩
    | collect =>
      obtain ⟨p, hp, hy⟩ := h
      obtain ⟨y', hy', hc⟩ :=
        exists_mem_assignLsns s.next_lsn _ (mem_drainAll s.backends hp hy)
      exact ⟨y', List.mem_append_left _ hy', hc⟩
    | flush confirmed =>
      have h' : inBuffer (Flush s confirmed) y := by
        cases confirmed
        · exact h
        · exact h
      obtain ⟨y', hy', hc⟩ := ih (Flush s confirmed) h'
      exact ⟨y', List.mem_append_right _ hy', hc⟩

/-- A record appended through a registered backend, then collected, then
flushed with acknowledgement has an LSN that is at most `flushed_lsn`. -/
theorem issued_of_FlushedAfterAppend (backends : List (BackendLogger × BackendLoggerObject))
    (ops : List LogOp) (a : BackendLogger) (x : LogRecord)
    (ha : a ∈ backends.map Prod.fst) (h : FlushedAfterAppend ops a x) :
    ∃ x' ∈ issued (LoggingSystem.start backends) ops,
      x' = { x with lsn := x'.lsn } ∧
        x'.lsn ≤ (runLog (LoggingSystem.start backends) ops).flushed_lsn := by
  obtain ⟨pre, mid, mid2, post, rfl⟩ := h
  have hreg : a ∈ (runLog (LoggingSystem.start backends) pre).backends.map Prod.fst := by
    rw [map_fst_runLog]
    exact ha
  have hbuf := inBuffer_appendAt_self _ a x hreg
  obtain ⟨x', hx', hc⟩ := issued_of_inBuffer mid mid2 _ hbuf
  -- the steps up to the flush
  have hsplit : pre ++ (.append a x :: (mid ++ (.collect :: (mid2 ++ (.flush true :: post)))))
      = (pre ++ (.append a x :: (mid ++ (.collect :: mid2)))) ++ (.flush true :: post) := by
    simp
  have hx1 : x' ∈ issued (LoggingSystem.start backends)
      (pre ++ (.append a x :: (mid ++ (.collect :: mid2)))) := by
    rw [issued_append]
    exact List.mem_append_right _ (List.mem_append_right _ hx')
  have hi1 : LsnInvariant (runLog (LoggingSystem.start backends)
      (pre ++ (.append a x :: (mid ++ (.collect :: mid2))))) :=
    LsnInvariant_runLog _ _ (LsnInvariant_start backends)
  have hmem : x' ∈ (runLog (LoggingSystem.start backends)
        (pre ++ (.append a x :: (mid ++ (.collect :: mid2))))).sink ++
      (runLog (LoggingSystem.start backends)
        (pre ++ (.append a x :: (mid ++ (.collect :: mid2))))).collected := by
    rw [sink_collected_eq]
    exact List.mem_append_right _ hx1
  have hi2 := LsnInvariant_run _ (.flush true) hi1
  have hs2 : x' ∈ (LogOp.run (runLog (LoggingSystem.start backends)
      (pre ++ (.append a x :: (mid ++ (.collect :: mid2))))) (.flush true)).sink := hmem
  rw [hsplit]
  refine ⟨x', ?_, hc, ?_⟩
  · rw [issued_append]
    exact List.mem_append_left _ hx1
  · rw [runLog, List.foldl_append, List.foldl_cons]
    exact le_trans (hi2.1 x' hs2) (flushed_lsn_mono post _)

/-- C11 (amended): from a coordinator that has flushed nothing, after any
sequence of appends, collections and flushes, a crash (whatever a write in
flight left behind the flushed records) and a recovery:
every Insert, Delete or Update record that was given an LSN at most the last
acknowledged `flushed_lsn` is in the recovered storage state, provided the
Begin record and the Commit record of its transaction were also given LSNs at
most `flushed_lsn`; every record appended through a registered backend, then
collected, then flushed with acknowledgement was given such an LSN; hence an
Insert, Delete or Update record that went through these steps, as did the Begin
and the Commit record of its transaction, is in the recovered storage state
with its LSN. -/
theorem DoRecovery_no_lost_commit (backends : List (BackendLogger × BackendLoggerObject))
    (ops : List LogOp) (torn : List (Option LogRecord)) (storage : StorageEngine) :
    (∀ r b c : LogRecord,
        r ∈ issued (LoggingSystem.start backends) ops →
        r.lsn ≤ (runLog (LoggingSystem.start backends) ops).flushed_lsn →
        isMutation r.record_kind = true →
        b ∈ issued (LoggingSystem.start backends) ops →
        b.lsn ≤ (runLog (LoggingSystem.start backends) ops).flushed_lsn →
        b.transaction_id = r.transaction_id → b.record_kind = .Begin →
        c ∈ issued (LoggingSystem.start backends) ops →
        c.lsn ≤ (runLog (LoggingSystem.start backends) ops).flushed_lsn →
        c.transaction_id = r.transaction_id → c.record_kind = .Commit →
        r ∈ (DoRecovery storage
          (crash (runLog (LoggingSystem.start backends) ops) torn)).storage.applied) ∧
      (∀ a x, a ∈ backends.map Prod.fst → FlushedAfterAppend ops a x →
        ∃ x' ∈ issued (LoggingSystem.start backends) ops,
          x' = { x with lsn := x'.lsn } ∧
            x'.lsn ≤ (runLog (LoggingSystem.start backends) ops).flushed_lsn) ∧
      (∀ ar ab ac (r b c : LogRecord),
        ar ∈ backends.map Prod.fst → FlushedAfterAppend ops ar r →
        ab ∈ backends.map Prod.fst → FlushedAfterAppend ops ab b →
        ac ∈ backends.map Prod.fst → FlushedAfterAppend ops ac c →
        isMutation r.record_kind = true →
        b.transaction_id = r.transaction_id → b.record_kind = .Begin →
        c.transaction_id = r.transaction_id → c.record_kind = .Commit →
        ∃ r' ∈ (DoRecovery storage
            (crash (runLog (LoggingSystem.start backends) ops) torn)).storage.applied,
          r' = { r with lsn := r'.lsn } ∧
            r'.lsn ≤ (runLog (LoggingSystem.start backends) ops).flushed_lsn) := by
  have hi : LsnInvariant (runLog (LoggingSystem.start backends) ops) :=
    LsnInvariant_runLog ops _ (LsnInvariant_start backends)
  have hsink : ∀ x, x ∈ issued (LoggingSystem.start backends) ops →
      x.lsn ≤ (runLog (LoggingSystem.start backends) ops).flushed_lsn →
      x ∈ (runLog (LoggingSystem.start backends) ops).sink := by
    intro x hx hl
    have hmem : x ∈ (runLog (LoggingSystem.start backends) ops).sink ++
        (runLog (LoggingSystem.start backends) ops).collected := by
      rw [sink_collected_eq]
      exact List.mem_append_right _ hx
    exact mem_sink_of_acknowledged hi ⟨hmem, hl⟩
  have hread : ∀ x, x ∈ (runLog (LoggingSystem.start backends) ops).sink →
      x ∈ readable (crash (runLog (LoggingSystem.start backends) ops) torn) := by
    intro x hx
    unfold crash
    rw [readable_map_some_append]
    exact List.mem_append_left _ hx
  have hA : ∀ r b c : LogRecord,
      r ∈ issued (LoggingSystem.start backends) ops →
      r.lsn ≤ (runLog (LoggingSystem.start backends) ops).flushed_lsn →
      isMutation r.record_kind = true →
      b ∈ issued (LoggingSystem.start backends) ops →
      b.lsn ≤ (runLog (LoggingSystem.start backends) ops).flushed_lsn →
      b.transaction_id = r.transaction_id → b.record_kind = .Begin →
      c ∈ issued (LoggingSystem.start backends) ops →
      c.lsn ≤ (runLog (LoggingSystem.start backends) ops).flushed_lsn →
      c.transaction_id = r.transaction_id → c.record_kind = .Commit →
      r ∈ (DoRecovery storage
        (crash (runLog (LoggingSystem.start backends) ops) torn)).storage.applied := by
    intro r b c hr hrl hm hb hbl hbt hbk hc hcl hct hck
    show r ∈ storage.applied ++ redoRecords _
    apply List.mem_append_right
    rw [mem_redoRecords]
    refine ⟨hread r (hsink r hr hrl), hm, ?_⟩
    rw [isCommitted_iff]
    exact ⟨⟨b, hread b (hsink b hb hbl), hbt, hbk⟩, ⟨c, hread c (hsink c hc hcl), hct, hck⟩⟩
  refine ⟨hA, fun a x ha h => issued_of_FlushedAfterAppend backends ops a x ha h, ?_⟩
  intro ar ab ac r b c har hr hab hb hac hc hm hbt hbk hct hck
  obtain ⟨r', hr', hrc, hrl⟩ := issued_of_FlushedAfterAppend backends ops ar r har hr
  obtain ⟨b', hb', hbc, hbl⟩ := issued_of_FlushedAfterAppend backends ops ab b hab hb
  obtain ⟨c', hc', hcc, hcl⟩ := issued_of_FlushedAfterAppend backends ops ac c hac hc
  refine ⟨r', ?_, hrc, hrl⟩
  have e1 : r'.record_kind = r.record_kind := by rw [hrc]
  have e2 : r'.transaction_id = r.transaction_id := by rw [hrc]
  have e3 : b'.record_kind = b.record_kind := by rw [hbc]
  have e4 : b'.transaction_id = b.transaction_id := by rw [hbc]
  have e5 : c'.record_kind = c.record_kind := by rw [hcc]
  have e6 : c'.transaction_id = c.transaction_id := by rw [hcc]
  exact hA r' b' c' hr' hrl (e1 ▸ hm) hb' hbl (by rw [e4, e2, hbt]) (by rw [e3, hbk])
    hc' hcl (by rw [e6, e2, hct]) (by rw [e5, hck])

/-- C11 (witness of the amended claim): scenario A.  `Begin(T1)`,
`Insert(T1, row 11)` and `Commit(T1)` are appended through backend `1`,
collected with LSNs `1`, `2`, `3` and flushed with `flushed_lsn = 3`; recovery
re-applies the insert even when the crash left an unparsable record behind. -/
theorem DoRecovery_no_lost_commit_witness :
    scenarioA = runLog (LoggingSystem.start [(1, ⟨0, []⟩)]) scenarioA_ops ∧
      scenarioA.flushed_lsn = 3 ∧
      issued (LoggingSystem.start [(1, ⟨0, []⟩)]) scenarioA_ops =
        [⟨1, 1, .Begin, 0, none⟩, ⟨2, 1, .Insert, 11, none⟩, ⟨3, 1, .Commit, 0, some 1⟩] ∧
      FlushedAfterAppend scenarioA_ops 1 ⟨0, 1, .Insert, 11, none⟩ ∧
      (⟨2, 1, .Insert, 11, none⟩ : LogRecord) ∈
        (DoRecovery ⟨[]⟩
          (crash (runLog (LoggingSystem.start [(1, ⟨0, []⟩)]) scenarioA_ops)
            [none])).storage.applied ∧
      (∃ r' ∈ (DoRecovery ⟨[]⟩
          (crash (runLog (LoggingSystem.start [(1, ⟨0, []⟩)]) scenarioA_ops)
            [none])).storage.applied,
        r' = { (⟨0, 1, .Insert, 11, none⟩ : LogRecord) with lsn := r'.lsn } ∧
          r'.lsn ≤ (runLog (LoggingSystem.start [(1, ⟨0, []⟩)]) scenarioA_ops).flushed_lsn) :=
  have h := DoRecovery_no_lost_commit [(1, ⟨0, []⟩)] scenarioA_ops [none] ⟨[]⟩
  have hreg : (1 : BackendLogger) ∈
      ([(1, ⟨0, []⟩)] : List (BackendLogger × BackendLoggerObject)).map Prod.fst := by
    decide
  have fb : FlushedAfterAppend scenarioA_ops 1 ⟨0, 1, .Begin, 0, none⟩ :=
    ⟨[], [.append 1 ⟨0, 1, .Insert, 11, none⟩, .append 1 ⟨0, 1, .Commit, 0, some 1⟩],
      [], [], rfl⟩
  have fr : FlushedAfterAppend scenarioA_ops 1 ⟨0, 1, .Insert, 11, none⟩ :=
    ⟨[.append 1 ⟨0, 1, .Begin, 0, none⟩], [.append 1 ⟨0, 1, .Commit, 0, some 1⟩],
      [], [], rfl⟩
  have fc : FlushedAfterAppend scenarioA_ops 1 ⟨0, 1, .Commit, 0, some 1⟩ :=
    ⟨[.append 1 ⟨0, 1, .Begin, 0, none⟩, .append 1 ⟨0, 1, .Insert, 11, none⟩],
      [], [], [], rfl⟩
  ⟨rfl, by decide, by decide, fr,
    h.1 ⟨2, 1, .Insert, 11, none⟩ ⟨1, 1, .Begin, 0, none⟩ ⟨3, 1, .Commit, 0, some 1⟩
      (by decide) (by decide) rfl (by decide) (by decide) rfl rfl
      (by decide) (by decide) rfl rfl,
    h.2.2 1 1 1 _ _ _ hreg fr hreg fb hreg fc rfl rfl rfl rfl rfl⟩

/-- C12 (witness): the log of scenario A followed by `Begin(T2)`,
`Insert(T2, row 22)` and an unparsable record holds no Commit record of `T2`;
recovery applies the insert of `T1` only. -/
theorem DoRecovery_no_phantom_commit_witness :
    (∀ c, some c ∈ mixedLog → c.transaction_id = 2 → c.record_kind ≠ .Commit) ∧
      redoRecords mixedLog = [⟨2, 1, .Insert, 11, none⟩] ∧
      (DoRecovery ⟨[]⟩ mixedLog).storage.applied = [] ++ redoRecords mixedLog ∧
      (∀ r ∈ redoRecords mixedLog, isMutation r.record_kind = true) ∧
      (∀ r ∈ redoRecords mixedLog, r.transaction_id ≠ 2) :=
  have h : ∀ c, some c ∈ mixedLog → c.transaction_id = 2 → c.record_kind ≠ .Commit := by
    intro c hc ht
    have hl : mixedLog =
        [some ⟨1, 1, .Begin, 0, none⟩, some ⟨2, 1, .Insert, 11, none⟩,
          some ⟨3, 1, .Commit, 0, some 1⟩, some ⟨4, 2, .Begin, 0, none⟩,
          some ⟨5, 2, .Insert, 22, none⟩, none] := by decide
    rw [hl] at hc
    simp only [List.mem_cons, Option.some.injEq, List.not_mem_nil, reduceCtorEq,
      or_false] at hc
    rcases hc with e | e | e | e | e <;> subst e <;> simp at ht ⊢
  ⟨h, by decide, DoRecovery_no_phantom_commit ⟨[]⟩ mixedLog 2 h⟩

end peloton.logging

/-! ## Snapshots of the registry are objects of their own -/

namespace peloton.logging

theorem VectorStore.read_write_self (m : VectorStore) (a : Nat) (v : List BackendLogger)
    (h : a < m.cells.length) : (m.write a v).read a = v := by
  simp [VectorStore.read, VectorStore.write, List.getD_eq_getElem?_getD, h]

theorem VectorStore.read_write_of_ne (m : VectorStore) {a a' : Nat} (v : List BackendLogger)
    (h : a' ≠ a) : (m.write a v).read a' = m.read a' := by
  simp [VectorStore.read, VectorStore.write, List.getD_eq_getElem?_getD,
    List.getElem?_set_ne h.symm]

theorem VectorStore.length_write (m : VectorStore) (a : Nat) (v : List BackendLogger) :
    (m.write a v).cells.length = m.cells.length := by
  simp [VectorStore.write]

theorem VectorStore.read_alloc_new (m : VectorStore) (v : List BackendLogger) :
    (m.alloc v).2.read (m.alloc v).1 = v := by
  simp [VectorStore.read, VectorStore.alloc, List.getD_eq_getElem?_getD]

theorem VectorStore.read_alloc_old (m : VectorStore) (v : List BackendLogger) {a : Nat}
    (h : a < m.cells.length) : (m.alloc v).2.read a = m.read a := by
  simp [VectorStore.read, VectorStore.alloc, List.getD_eq_getElem?_getD,
    List.getElem?_append_left h]

/-- One registration or removal on the registry at `self`: the store keeps its
size, every other vector keeps its contents, and the registry changes as the
operation on its contents says. -/
theorem RegistryOp.runAt_spec (self : Nat) (m : VectorStore) (op : RegistryOp)
    (h : self < m.cells.length) :
    (op.runAt self m).cells.length = m.cells.length ∧
      (∀ a, a ≠ self → (op.runAt self m).read a = m.read a) ∧
      (op.runAt self m).read self = (RegistryOp.run ⟨m.read self⟩ op).backend_loggers := by
  cases op with
  | add b =>
    exact ⟨VectorStore.length_write _ _ _,
      fun a ha => VectorStore.read_write_of_ne m _ ha,
      VectorStore.read_write_self m self _ h⟩
  | remove b =>
    exact ⟨VectorStore.length_write _ _ _,
      fun a ha => VectorStore.read_write_of_ne m _ ha,
      VectorStore.read_write_self m self _ h⟩

theorem runOpsAt_spec (self : Nat) (ops : List RegistryOp) (m : VectorStore)
    (h : self < m.cells.length) :
    (runOpsAt self m ops).cells.length = m.cells.length ∧
      (∀ a, a ≠ self → (runOpsAt self m ops).read a = m.read a) ∧
      (runOpsAt self m ops).read self = (runOps ⟨m.read self⟩ ops).backend_loggers := by
  induction ops generalizing m with
  | nil => exact ⟨rfl, fun _ _ => rfl, rfl⟩
  | cons op rest ih =>
    obtain ⟨h1, h2, h3⟩ := RegistryOp.runAt_spec self m op h
    obtain ⟨i1, i2, i3⟩ := ih (op.runAt self m) (by rw [h1]; exact h)
    refine ⟨i1.trans h1, fun a ha => (i2 a ha).trans (h2 a ha), ?_⟩
    show (runOpsAt self (op.runAt self m) rest).read self = _
    rw [i3, h3]
    rfl

/-- C10: for a `FrontendLogger` whose registry is the vector at address `self`,
`GetBackendLoggers()` hands the caller a vector object of its own, at an
address different from the registry, that contains exactly the backends
registered at the time of the call; the call leaves the registry (and every
other existing vector) unchanged; and after any later `AddBackendLogger` and
`RemoveBackendLogger` calls on the registry the returned vector still has the
contents it had, while the registry itself has followed those calls. -/
theorem GetBackendLoggers_at_snapshot (m : VectorStore) (self : Nat) (ops : List RegistryOp)
    (h : self < m.cells.length) :
    (GetBackendLoggers_at m self).1 ≠ self ∧
      (GetBackendLoggers_at m self).2.read (GetBackendLoggers_at m self).1 = m.read self ∧
      (∀ b, b ∈ (GetBackendLoggers_at m self).2.read (GetBackendLoggers_at m self).1 ↔
        b ∈ m.read self) ∧
      (∀ a, a < m.cells.length → (GetBackendLoggers_at m self).2.read a = m.read a) ∧
      (runOpsAt self (GetBackendLoggers_at m self).2 ops).read (GetBackendLoggers_at m self).1
        = m.read self ∧
      (runOpsAt self (GetBackendLoggers_at m self).2 ops).read self
        = (runOps ⟨m.read self⟩ ops).backend_loggers := by
  have hne : (GetBackendLoggers_at m self).1 ≠ self := by
    show m.cells.length ≠ self
    omega
  have hnew : (GetBackendLoggers_at m self).2.read (GetBackendLoggers_at m self).1
      = m.read self := VectorStore.read_alloc_new m _
  have hold : ∀ a, a < m.cells.length → (GetBackendLoggers_at m self).2.read a = m.read a :=
    fun a ha => VectorStore.read_alloc_old m _ ha
  have hlen : self < (GetBackendLoggers_at m self).2.cells.length := by
    show self < (m.cells ++ [_]).length
    rw [List.length_append]
    omega
  obtain ⟨-, r2, r3⟩ := runOpsAt_spec self ops (GetBackendLoggers_at m self).2 hlen
  refine ⟨hne, hnew, fun b => by rw [hnew], hold, ?_, ?_⟩
  · rw [r2 _ hne, hnew]
  · rw [r3, hold self h]

/-- C10 (witness): the registry `[1, 2]` at address `0`.  The snapshot is a new
vector at address `1`; after backend `3` is added and backend `1` is removed the
registry holds `[2, 3]` and the snapshot still holds `[1, 2]`. -/
theorem GetBackendLoggers_at_snapshot_witness :
    (0 : Nat) < (VectorStore.mk [[1, 2]]).cells.length ∧
      runOpsAt 0 (GetBackendLoggers_at ⟨[[1, 2]]⟩ 0).2 [.add 3, .remove 1]
        = ⟨[[2, 3], [1, 2]]⟩ ∧
      (GetBackendLoggers_at ⟨[[1, 2]]⟩ 0).1 ≠ 0 ∧
      (GetBackendLoggers_at ⟨[[1, 2]]⟩ 0).2.read (GetBackendLoggers_at ⟨[[1, 2]]⟩ 0).1
        = (VectorStore.mk [[1, 2]]).read 0 ∧
      (runOpsAt 0 (GetBackendLoggers_at ⟨[[1, 2]]⟩ 0).2 [.add 3, .remove 1]).read
        (GetBackendLoggers_at ⟨[[1, 2]]⟩ 0).1 = (VectorStore.mk [[1, 2]]).read 0 ∧
      (runOpsAt 0 (GetBackendLoggers_at ⟨[[1, 2]]⟩ 0).2 [.add 3, .remove 1]).read 0
        = (runOps ⟨(VectorStore.mk [[1, 2]]).read 0⟩ [.add 3, .remove 1]).backend_loggers :=
  have h0 : (0 : Nat) < (VectorStore.mk [[1, 2]]).cells.length := by decide
  have h := GetBackendLoggers_at_snapshot ⟨[[1, 2]]⟩ 0 [.add 3, .remove 1] h0
  ⟨h0, by decide, h.1, h.2.1, h.2.2.2.2.1, h.2.2.2.2.2⟩

end peloton.logging
